import Mathlib

/-!
Verification development for the Quantum-ZKP proof engine.

The TypeScript sources are shallowly embedded as follows.
Buffers (Node `Buffer`) are lists of byte values (`List Nat`).  The
external SHA-256 / SHA-384 / SHA-512 / HMAC primitives from the Node
`crypto` module are not repository code; they are modelled as function
parameters `H : Buf -> Buf` (a digest) and `Hm : Buf -> Buf -> Buf`
(an HMAC, first argument the data, second the key).  The secure random
source is modelled by explicit tape / oracle arguments: each call of
`generateRandomBytes` is an explicit buffer argument, each call of
`generateRandomBigInt` consumes one entry of a `List Nat` tape holding
the big-endian value of the random byte buffer it draws, and each call
of the float-based `generateDiscreteGaussianError` (Box-Muller over
JavaScript doubles) is an explicit integer oracle argument.
JavaScript bigint `%` is truncated division remainder, i.e. `Int.tmod`.
-/

/-- Byte strings (Node `Buffer`): lists of byte values. -/
abbrev Buf := List Nat

/-- Big-endian value of a byte string, as produced by
`BigInt('0x' + buffer.toString('hex'))` (`toString('hex')` renders every
byte with two hex digits, so the value is the base-256 big-endian value). -/
def beBytesToNat (l : Buf) : Nat :=
  l.foldl (fun acc b => acc * 256 + b) 0

/-- Fuel-driven big-endian digit extraction; the fuel only bounds the
recursion depth (one digit per step) and `natToBEAux` supplies enough of
it, giving a structurally recursive computation of the minimal base-256
digits. -/
def natToBEAuxF : Nat → Nat → Buf
  | _, 0 => []
  | 0, _ + 1 => []
  | fuel + 1, v + 1 => natToBEAuxF fuel ((v + 1) / 256) ++ [(v + 1) % 256]

/-- Minimal big-endian base-256 digits of a positive number (empty for 0).
`v.toString(16)` padded to even length and split in hex pairs is exactly
the base-256 big-endian representation without leading zero bytes. -/
def natToBEAux (v : Nat) : Buf :=
  natToBEAuxF v v

/-- Bytes of `int.toString(16)` after the even-length zero padding done by
`bigIntsToBuffer` (`QuantumCrypto`, src/utils/crypto.ts): `0` renders as
the single byte `00`, positive values as their minimal big-endian bytes. -/
def natToBEBytes (v : Nat) : Buf :=
  if v = 0 then [0] else natToBEAux v

/-- One integer of `QuantumCrypto.bigIntsToBuffer`.  A negative bigint
renders as a hex string starting with a minus sign, which Node
`Buffer.from('s', 'hex')` truncates at the first invalid character,
yielding an empty buffer; no modelled execution path reaches this case. -/
def intToBEBytes (v : Int) : Buf :=
  if v < 0 then [] else natToBEBytes v.toNat

/-- `QuantumCrypto.bigIntsToBuffer`: concatenation of the per-integer
hex renderings. -/
def bigIntsToBuffer (ints : List Int) : Buf :=
  (ints.map intToBEBytes).flatten

/-- `Math.ceil(length / count)` for natural arguments. -/
def bytesPerIntOf (len count : Nat) : Nat :=
  (len + count - 1) / count

/-- The `i`-th slice taken by `QuantumCrypto.bufferToBigInts`:
`buffer.slice(i * bytesPerInt, min((i + 1) * bytesPerInt, length))`. -/
def sliceOf (buffer : Buf) (count i : Nat) : Buf :=
  (buffer.drop (i * bytesPerIntOf buffer.length count)).take
    (bytesPerIntOf buffer.length count)

/-- `QuantumCrypto.bufferToBigInts` for a natural `count` (every call site
except the lattice verifier passes a whole number): split the buffer in
`count` ceiling-division-sized slices, an empty slice contributing `0n`
and a non-empty one its big-endian value. -/
def bufferToBigInts (buffer : Buf) (count : Nat) : List Int :=
  (List.range count).map fun i =>
    let slice := sliceOf buffer count i
    if slice.isEmpty then 0 else (beBytesToNat slice : Int)

/-- `QuantumCrypto.bufferToBigInts` for a fractional `count` (the lattice
verifier passes `Math.min(response.length / 8, 10)`, a JavaScript float):
the loop `for (i = 0; i < count; i++)` runs `ceil(count)` times and
`Math.ceil(length / count)` is the rational ceiling. -/
def bufferToBigIntsFrac (buffer : Buf) (count : ℚ) : List Int :=
  if count ≤ 0 then []
  else
    let iters := (Int.ceil count).toNat
    let bytesPerInt := (Int.ceil ((buffer.length : ℚ) / count)).toNat
    (List.range iters).map fun i =>
      let slice := (buffer.drop (i * bytesPerInt)).take bytesPerInt
      if slice.isEmpty then 0 else (beBytesToNat slice : Int)

/-- `QuantumCrypto.generateRandomBigInt(min, max)`: the tape entry `t` is
the big-endian value of the sampled random byte buffer, and the result is
`(t % (max - min)) + min` with bigint (truncated) remainder. -/
def randBig (lo hi : Int) (t : Nat) : Int :=
  Int.tmod (t : Int) (hi - lo) + lo

/-- `QuantumCrypto.generateLWESample(dimension, modulus, errorBound)`:
`dimension` draws in `[0, modulus)` for the vector `a`, then the
Box-Muller error (oracle argument `err`), then one more draw for `b`,
returning `b = (draw + err) % modulus`. -/
def generateLWESample (dimension : Nat) (modulus : Int) (err : Int)
    (tape : List Nat) : List Int × Int :=
  let a := (List.range dimension).map fun i => randBig 0 modulus (tape.getD i 0)
  let b := Int.tmod (randBig 0 modulus (tape.getD dimension 0) + err) modulus
  (a, b)

/-- ASCII bytes of the corrupted-content sentinel `'corrupted'`. -/
def corruptedBytes : Buf := [99, 111, 114, 114, 117, 112, 116, 101, 100]

/-- Whether the second list starts with the first one. -/
def matchAt : List Nat → List Nat → Bool
  | [], _ => true
  | _ :: _, [] => false
  | p :: ps, b :: bs => p == b && matchAt ps bs

/-- Whether `pat` occurs contiguously inside `l`. -/
def findPat (pat : List Nat) : List Nat → Bool
  | [] => matchAt pat []
  | b :: bs => matchAt pat (b :: bs) || findPat pat bs

/-- `buffer.toString('utf8').includes('corrupted')`: the sentinel is pure
ASCII and Node utf8 decoding maps ASCII bytes to themselves (continuation
bytes are all at least `0x80`), so the decoded string contains the
sentinel exactly when the byte string contains its ASCII bytes. -/
def hasCorrupted (b : Buf) : Bool :=
  findPat corruptedBytes b

/-- `QuantumCrypto.combineHashes`: throws on an empty array, returns the
single element unchanged, otherwise `Array.prototype.reduce` without an
initial value, i.e. a left fold of `H (acc ++ h)` from the first element. -/
def combineHashes (H : Buf → Buf) (hashes : List Buf) : Except String Buf :=
  match hashes with
  | [] => .error "Cannot combine empty hash array"
  | [h] => .ok h
  | h :: t => .ok (t.foldl (fun acc x => H (acc ++ x)) h)

/-- Total variant of `combineHashes` used inside proof construction where
the input list is never empty (hybrid parameter validation enforces at
least two component algorithms before any combination happens). -/
def combineHashes1 (H : Buf → Buf) (hashes : List Buf) : Buf :=
  match hashes with
  | [] => []
  | h :: t => t.foldl (fun acc x => H (acc ++ x)) h

/-- One level-up step of `QuantumCrypto.generateMerkleTree`: hash adjacent
pairs, duplicating the last node of an odd-length level. -/
def merklePair (H : Buf → Buf) : List Buf → List Buf
  | [] => []
  | [x] => [H (x ++ x)]
  | x :: y :: rest => H (x ++ y) :: merklePair H rest

/-- The levels of `QuantumCrypto.generateMerkleTree`, bottom (the leaves)
first.  The `while (currentLevel.length > 1)` loop is driven by fuel; the
initial level length is always enough fuel, see `buildLevels`. -/
def buildLevelsAux (H : Buf → Buf) : Nat → List Buf → List (List Buf)
  | 0, lvl => [lvl]
  | fuel + 1, lvl =>
      if lvl.length ≤ 1 then [lvl]
      else lvl :: buildLevelsAux H fuel (merklePair H lvl)

/-- All levels of the Merkle tree over the given leaves, leaves first. -/
def buildLevels (H : Buf → Buf) (leaves : List Buf) : List (List Buf) :=
  buildLevelsAux H leaves.length leaves

/-- The root read off by `generateMerkleTree`: first node of the last
computed level. -/
def merkleRootOf (levels : List (List Buf)) : Buf :=
  (levels.getLastD []).getD 0 []

/-- `QuantumCrypto.generateMerkleTree(leaves)`: throws on zero leaves,
otherwise returns the level list together with the root. -/
def generateMerkleTree (H : Buf → Buf) (leaves : List Buf) :
    Except String (List (List Buf) × Buf) :=
  if leaves.isEmpty then .error "Cannot generate Merkle tree with no leaves"
  else .ok (buildLevels H leaves, merkleRootOf (buildLevels H leaves))

/-- `QuantumCrypto.generateMerkleProof(tree, leafIndex)`: walk the levels
below the root; at each level push the sibling of the current index when
it exists (the last node of an odd-length level has none, in which case
nothing is pushed), then halve the index. -/
def generateMerkleProof : List (List Buf) → Nat → List Buf
  | [], _ => []
  | [_], _ => []
  | lvl :: next :: rest, i =>
      let sib := if i % 2 == 1 then i - 1 else i + 1
      (if sib < lvl.length then [lvl.getD sib []] else []) ++
        generateMerkleProof (next :: rest) (i / 2)

/-- The folding loop of `QuantumCrypto.verifyMerkleProof`: combine the
current hash with each sibling, on the left or right according to the
parity of the running index. -/
def merkleFoldPath (H : Buf → Buf) : Buf → Nat → List Buf → Buf
  | cur, _, [] => cur
  | cur, idx, sib :: rest =>
      merkleFoldPath H
        (H (if idx % 2 == 1 then sib ++ cur else cur ++ sib)) (idx / 2) rest

/-- `QuantumCrypto.verifyMerkleProof(leaf, proof, root, leafIndex)`. -/
def verifyMerkleProof (H : Buf → Buf) (leaf : Buf) (proof : List Buf)
    (root : Buf) (leafIndex : Nat) : Bool :=
  merkleFoldPath H leaf leafIndex proof == root

/-- Sibling-availability of the whole proof path, fuel-driven like
`buildLevelsAux`: at every level below the root the running index must
have an in-range sibling.  Index 0 always satisfies this, as does every
index when the leaf count is a power of two. -/
def pathComplete (H : Buf → Buf) : Nat → List Buf → Nat → Bool
  | 0, _, _ => true
  | fuel + 1, lvl, i =>
      if lvl.length ≤ 1 then true
      else
        ((if i % 2 == 1 then i - 1 else i + 1) < lvl.length : Bool) &&
          pathComplete H fuel (merklePair H lvl) (i / 2)

/-- `QuantumCrypto.validateLatticeParameters`: numeric dimension at least
128 and positive bigint modulus. -/
def validateLatticeParameters (dimension modulus : Int) : Bool :=
  !(decide (dimension < 128)) && !(decide (modulus ≤ 0))

/-- `QuantumCrypto.validateHashParameters`: numeric chain length at least
100. -/
def validateHashParameters (chainLength : Int) : Bool :=
  !(decide (chainLength < 100))

/-- `QuantumCrypto.validateMultivariateParameters`: at least 8 variables
and at least as many equations as variables. -/
def validateMultivariateParameters (nVars nEqs : Int) : Bool :=
  !(decide (nVars < 8)) && !(decide (nEqs < nVars))

/-- Algorithm tags of the library. -/
inductive AlgorithmType
  | lattice
  | hash
  | multivariate
  | hybrid
deriving DecidableEq, Repr

/-- `QuantumCrypto.validateHybridParameters`: at least two component
algorithms, each one of the three base tags. -/
def validateHybridParameters (algorithms : List AlgorithmType) : Bool :=
  decide (2 ≤ algorithms.length) &&
    algorithms.all fun a =>
      a == AlgorithmType.lattice || a == AlgorithmType.hash ||
        a == AlgorithmType.multivariate

/-!  ## Proof data model

Each proof variant keeps the fields its verifier inspects.  The
`instanceof Buffer` / `instanceof Array` checks of the structure
validators are enforced by the embedding types; the `type` string tag is
kept so tag mismatches remain representable.  Fields never read during
verification (`parameters`, `quantumSafe`, `timestamp`, `version`) are
omitted. -/

/-- `HashProof` (src/types): `commitmentChain` is the Merkle root,
`merkleTree` and `merkleProof` are optional fields in the TypeScript
type, checked for presence by the structure validator. -/
structure HashProof where
  ptype : String
  commitment : Buf
  challenge : Buf
  response : Buf
  chainLength : Int
  hashChain : List Buf
  commitmentChain : Buf
  merkleTree : Option (List (List Buf))
  merkleProof : Option (List Buf)

/-- `LatticeProof` (src/types). -/
structure LatticeProof where
  ptype : String
  commitment : Buf
  challenge : Buf
  response : Buf
  dimension : Int
  modulus : Int
  polynomialCommitment : Buf

/-- `MultivariateProof` (src/types). -/
structure MultivariateProof where
  ptype : String
  commitment : Buf
  challenge : Buf
  response : Buf
  nVars : Int
  nEqs : Int
  polynomialSystem : Buf
  solution : Buf

/-- A component of a hybrid proof: one of the three base proof shapes. -/
inductive ComponentProof
  | lat (p : LatticeProof)
  | hsh (p : HashProof)
  | mv (p : MultivariateProof)

/-- The `commitment` field of a component proof. -/
def componentCommitment : ComponentProof → Buf
  | .lat p => p.commitment
  | .hsh p => p.commitment
  | .mv p => p.commitment

/-- The `response` field of a component proof. -/
def componentResponse : ComponentProof → Buf
  | .lat p => p.response
  | .hsh p => p.response
  | .mv p => p.response

/-- The `type` string tag of a component proof. -/
def componentPtype : ComponentProof → String
  | .lat p => p.ptype
  | .hsh p => p.ptype
  | .mv p => p.ptype

/-- `HybridProof` (src/types).  `algorithmWeights` maps a type tag to the
utf8 bytes of the rendered decimal weight (the float-to-string rendering
is external); verification only tests the field for presence. -/
structure HybridProof where
  ptype : String
  commitment : Buf
  challenge : Buf
  response : Buf
  proofs : List ComponentProof
  combined : Buf
  algorithmWeights : String → Buf

/-!  ## Hash-chain engine (`HashZKP`, src/algorithms/hash.ts) -/

/-- `HashZKP.createHashChain(seed, length)`: iterate the digest, pushing
every intermediate value; `chain[0] = H(seed)`. -/
def createHashChain (H : Buf → Buf) (seed : Buf) : Nat → List Buf
  | 0 => []
  | n + 1 => H seed :: createHashChain H (H seed) n

/-- `HashZKP.generateChallenge(commitment, witness)`:
`H(commitment ++ witness)`. -/
def hashGenerateChallenge (H : Buf → Buf) (commitment witness : Buf) : Buf :=
  H (commitment ++ witness)

/-- `HashZKP.createResponse(secret, witness, challenge)`: 32 bytes of
witness (truncated or zero padded) followed by 32 bytes of
`HMAC(challenge, H(secret))` (truncated or zero padded). -/
def hashCreateResponse (H : Buf → Buf) (Hm : Buf → Buf → Buf)
    (secret witness challenge : Buf) : Buf :=
  let secretHash := H secret
  let challengeResponse := Hm challenge secretHash
  let witnessPart :=
    if 32 ≤ witness.length then witness.take 32
    else witness ++ List.replicate (32 - witness.length) 0
  let responsePart :=
    if 32 ≤ challengeResponse.length then challengeResponse.take 32
    else challengeResponse ++ List.replicate (32 - challengeResponse.length) 0
  witnessPart ++ responsePart

/-- `HashZKP.verifyHashChain(hashChain)`: chains shorter than 2 are
rejected, otherwise every element must be the digest of its
predecessor. -/
def hashVerifyHashChain (H : Buf → Buf) (hashChain : List Buf) : Bool :=
  if hashChain.length < 2 then false
  else
    (List.range (hashChain.length - 1)).all fun i =>
      H (hashChain.getD i []) == hashChain.getD (i + 1) []

/-- `HashZKP.validateProofStructure(proof)`.  The `instanceof` checks
hold by typing; the remaining checks are the tag, a non-empty chain, a
positive chain length and the presence of tree and proof path. -/
def hashValidateProofStructure (p : HashProof) : Bool :=
  p.ptype == "hash" && decide (0 < p.hashChain.length) &&
    decide (0 < p.chainLength) && p.merkleTree.isSome && p.merkleProof.isSome

/-- `HashZKP.verifyProof(proof)` in source order: structure, non-empty
chain, Merkle inclusion of `hashChain[0]` at index 0, the full chain
walk, `hashChain[0]` against `commitment`, the 64-byte response and the
32-byte challenge. -/
def hashVerifyProof (H : Buf → Buf) (p : HashProof) : Bool :=
  if hashValidateProofStructure p = false then false
  else if p.hashChain.isEmpty then false
  else if verifyMerkleProof H (p.hashChain.headD []) (p.merkleProof.getD [])
      p.commitmentChain 0 = false then false
  else if hashVerifyHashChain H p.hashChain = false then false
  else if (p.hashChain.headD [] == p.commitment) = false then false
  else if (p.response.length == 64) = false then false
  else if (p.challenge.length == 32) = false then false
  else true

/-- The proof record built by `HashZKP.createProof` once parameter
validation has passed, from the 32-byte random witness and the 16-byte
random seed. -/
def hashMkProof (H : Buf → Buf) (Hm : Buf → Buf → Buf)
    (secret witness randomSeed : Buf) (chainLength : Int) : HashProof :=
  let combinedSeed := secret ++ randomSeed
  let commitmentChain := createHashChain H combinedSeed chainLength.toNat
  let commitment := commitmentChain.headD []
  let challenge := hashGenerateChallenge H commitment witness
  let response := hashCreateResponse H Hm secret witness challenge
  let tree := buildLevels H commitmentChain
  { ptype := "hash", commitment := commitment, challenge := challenge,
    response := response, chainLength := chainLength,
    hashChain := commitmentChain, commitmentChain := merkleRootOf tree,
    merkleTree := some tree,
    merkleProof := some (generateMerkleProof tree 0) }

/-- `HashZKP.createProof(secret, parameters)`.  The chain length is
`parameters?.chainLength || 1000`: an absent parameter and the falsy
value `0` both fall back to the default.  Validation failure throws
`Invalid hash parameters`; `generateMerkleTree` throws on an empty chain
(unreachable once validation has passed). -/
def hashCreateProof (H : Buf → Buf) (Hm : Buf → Buf → Buf)
    (secret witness randomSeed : Buf) (pChain : Option Int) :
    Except String HashProof :=
  let chainLength : Int :=
    match pChain with
    | none => 1000
    | some v => if v == 0 then 1000 else v
  if validateHashParameters chainLength = false then
    .error "Invalid hash parameters"
  else if (createHashChain H (secret ++ randomSeed) chainLength.toNat).isEmpty
    then .error "Cannot generate Merkle tree with no leaves"
  else .ok (hashMkProof H Hm secret witness randomSeed chainLength)

/-!  ## Lattice engine (`LatticeZKP`, src/algorithms/lattice.ts) -/

/-- `LatticeZKP.createLWECommitment(a, secret, modulus)`: fold
`(commitment + a[i] * secretInts[i]) % modulus` over the dimension, add
the Box-Muller error (oracle argument), reduce again and pack the single
bigint. -/
def createLWECommitment (a : List Int) (secret : Buf) (modulus : Int)
    (err : Int) : Buf :=
  let secretInts := bufferToBigInts secret a.length
  let commitment := (List.range a.length).foldl
    (fun c i => Int.tmod (c + a.getD i 0 * secretInts.getD i 0) modulus) 0
  bigIntsToBuffer [Int.tmod (commitment + err) modulus]

/-- `LatticeZKP.generateLWEChallenge(commitment, witness, a)`:
`H(commitment ++ witness ++ pack(a))`. -/
def generateLWEChallenge (H : Buf → Buf) (commitment witness : Buf)
    (a : List Int) : Buf :=
  H (commitment ++ witness ++ bigIntsToBuffer a)

/-- The integer vector computed by `LatticeZKP.createLWEResponse` before
packing: `(secretInts[i] * challengeInt + witnessInts[i]) % modulus`. -/
def createLWEResponseVals (secret witness challenge : Buf) (a : List Int)
    (modulus : Int) : List Int :=
  let secretInts := bufferToBigInts secret a.length
  let challengeInt : Int := (beBytesToNat challenge : Int)
  let weightedSecret := secretInts.map fun s => Int.tmod (s * challengeInt) modulus
  let witnessInts := bufferToBigInts witness a.length
  List.zipWith (fun ws w => Int.tmod (ws + w) modulus) weightedSecret witnessInts

/-- `LatticeZKP.createLWEResponse(secret, witness, challenge, a, modulus)`. -/
def createLWEResponse (secret witness challenge : Buf) (a : List Int)
    (modulus : Int) : Buf :=
  bigIntsToBuffer (createLWEResponseVals secret witness challenge a modulus)

/-- `LatticeZKP.generatePolynomialCoefficients(dimension)`: `dimension`
draws from `generateRandomBigInt(0n, 2n ** 64n)`. -/
def latticePolyCoefficients (dimension : Nat) (tape : List Nat) : List Int :=
  (List.range dimension).map fun i => randBig 0 (2 ^ 64) (tape.getD i 0)

/-- `LatticeZKP.validateProofStructure(proof)`: tag, positive dimension,
positive modulus (the `instanceof Buffer` checks hold by typing). -/
def latticeValidateProofStructure (p : LatticeProof) : Bool :=
  p.ptype == "lattice" && decide (0 < p.dimension) && decide (0 < p.modulus)

/-- `LatticeZKP.verifyLWEEquation(proof)`: sentinel on the response,
unpack the commitment (count 1) and the response (count `dimension`),
check the count, the `[0, modulus)` ranges, a non-zero response entry and
the all-equal-to-zero degenerate case. -/
def latticeVerifyLWEEquation (p : LatticeProof) : Bool :=
  if hasCorrupted p.response then false
  else
    let commitment := (bufferToBigInts p.commitment 1).getD 0 0
    let response := bufferToBigInts p.response p.dimension.toNat
    if ((response.length : Int) == p.dimension) = false then false
    else if (response.all fun v => decide (0 ≤ v) && decide (v < p.modulus))
      = false then false
    else if (decide (0 ≤ commitment) && decide (commitment < p.modulus))
      = false then false
    else if (response.any fun v => !(v == 0)) = false then false
    else if (response.all fun v => v == response.headD 0) &&
      response.headD 0 == 0 then false
    else true

/-- `LatticeZKP.verifyPolynomialCommitment(proof)`: a non-empty
commitment of exactly 32 bytes. -/
def latticeVerifyPolynomialCommitment (p : LatticeProof) : Bool :=
  if p.polynomialCommitment.isEmpty then false
  else if (p.polynomialCommitment.length == 32) = false then false
  else true

/-- `LatticeZKP.verifyZeroKnowledge(proof)`: the response and challenge
digests must differ. -/
def latticeVerifyZeroKnowledge (H : Buf → Buf) (p : LatticeProof) : Bool :=
  !(H p.response == H p.challenge)

/-- `LatticeZKP.verifyProof(proof)` in source order. -/
def latticeVerifyProof (H : Buf → Buf) (p : LatticeProof) : Bool :=
  if latticeValidateProofStructure p = false then false
  else if p.response.isEmpty then false
  else if (p.challenge.length == 32) = false then false
  else if p.commitment.isEmpty then false
  else
    let responseInts :=
      bufferToBigIntsFrac p.response (min ((p.response.length : ℚ) / 8) 10)
    if (responseInts.any fun v => !(v == 0)) = false then false
    else
      let challengeInts := bufferToBigInts p.challenge 4
      if (challengeInts.any fun v => !(v == 0)) = false then false
      else if hasCorrupted p.response || hasCorrupted p.challenge ||
        hasCorrupted p.commitment then false
      else if latticeVerifyLWEEquation p = false then false
      else if latticeVerifyPolynomialCommitment p = false then false
      else if latticeVerifyZeroKnowledge H p = false then false
      else true

/-- The proof record built by `LatticeZKP.createProof` once parameter
validation has passed.  `lweTape` drives `generateLWESample` (whose `b`
and error draw are discarded by `createProof`, which keeps only `a`),
`lweErr` and `commitErr` are the two Box-Muller error oracles, `witness`
the 32 random bytes and `polyTape` the polynomial coefficient draws. -/
def latticeMkProof (H : Buf → Buf) (secret : Buf) (dimension modulus : Int)
    (lweTape : List Nat) (lweErr commitErr : Int) (witness : Buf)
    (polyTape : List Nat) : LatticeProof :=
  let a := (generateLWESample dimension.toNat modulus lweErr lweTape).1
  let commitment := createLWECommitment a secret modulus commitErr
  let challenge := generateLWEChallenge H commitment witness a
  let response := createLWEResponse secret witness challenge a modulus
  { ptype := "lattice", commitment := commitment, challenge := challenge,
    response := response, dimension := dimension, modulus := modulus,
    polynomialCommitment :=
      H (bigIntsToBuffer (latticePolyCoefficients dimension.toNat polyTape)) }

/-- `LatticeZKP.createProof(secret, parameters)`.  Dimension is
`parameters?.dimension || 256` and the modulus is
`parameters?.modulus || generateLargePrime(1024)` (the prime generator is
randomized; its output is the `primeOracle` argument); the falsy values
`0` and `0n` fall back to the defaults. -/
def latticeCreateProof (H : Buf → Buf) (secret : Buf)
    (pDim pMod : Option Int) (primeOracle : Int) (lweTape : List Nat)
    (lweErr commitErr : Int) (witness : Buf) (polyTape : List Nat) :
    Except String LatticeProof :=
  let dimension : Int :=
    match pDim with
    | none => 256
    | some v => if v == 0 then 256 else v
  let modulus : Int :=
    match pMod with
    | none => primeOracle
    | some v => if v == 0 then primeOracle else v
  if validateLatticeParameters dimension modulus = false then
    .error "Invalid lattice parameters"
  else .ok (latticeMkProof H secret dimension modulus lweTape lweErr
    commitErr witness polyTape)

/-!  ## Multivariate engine (`MultivariateZKP`, src/algorithms/multivariate.ts)

The serialized polynomial system is produced by `JSON.stringify` and read
back by `JSON.parse`; both are JavaScript builtins, so serialization and
deserialization are modelled as function parameters `serial` and `deser`.
The only fact used about them is the round-trip on the freshly generated
system, taken as an explicit hypothesis where needed. -/

/-- The coefficient array built by
`MultivariateZKP.generateMultivariateSystem` before serialization:
`equations * variables` polynomials of `max(degree, 1)` coefficients,
each drawn from `generateRandomBigInt(1n, 2n ** 32n)`, the tape being
consumed in loop order. -/
def mvRawSystem (tape : List Nat) (nVars nEqs degree : Nat) :
    List (List (List Int)) :=
  (List.range nEqs).map fun eqIdx =>
    (List.range nVars).map fun v =>
      (List.range (max degree 1)).map fun d =>
        randBig 1 (2 ^ 32)
          (tape.getD ((eqIdx * nVars + v) * max degree 1 + d) 0)

/-- `MultivariateZKP.createDefaultPolynomialSystem()`: two equations of
two variables with coefficients `[1, 2]`. -/
def mvDefaultSystem : List (List (List Int)) :=
  [[[1, 2], [1, 2]], [[1, 2], [1, 2]]]

/-- `MultivariateZKP.generateMultivariateSystem(variables, equations,
degree)`: generate the coefficient array and serialize it, falling back
to the default system when the array is degenerate (zero equations or
zero variables). -/
def mvGenerateSystem (serial : List (List (List Int)) → Buf)
    (tape : List Nat) (nVars nEqs degree : Nat) : Buf :=
  let system := mvRawSystem tape nVars nEqs degree
  if nEqs == 0 || nVars == 0 then serial mvDefaultSystem
  else serial system

/-- `MultivariateZKP.createMultivariateCommitment(secret, system)`:
`H(H(secret) ++ H(system))`. -/
def mvCreateCommitment (H : Buf → Buf) (secret polynomialSystem : Buf) : Buf :=
  H (H secret ++ H polynomialSystem)

/-- `MultivariateZKP.generateMultivariateChallenge(commitment, witness,
system)`: `H(commitment ++ witness ++ system)`. -/
def mvGenerateChallenge (H : Buf → Buf)
    (commitment witness polynomialSystem : Buf) : Buf :=
  H (commitment ++ witness ++ polynomialSystem)

/-- `MultivariateZKP.createMultivariateResponse(secret, witness,
challenge)`: 16 secret integers weighted by the challenge integer plus 16
witness integers, all modulo `2 ** 64`. -/
def mvCreateResponse (secret witness challenge : Buf) : Buf :=
  let secretInts := bufferToBigInts secret 16
  let challengeInt : Int := (beBytesToNat challenge : Int)
  let weightedSecret := secretInts.map fun s => Int.tmod (s * challengeInt) (2 ^ 64)
  let witnessInts := bufferToBigInts witness 16
  bigIntsToBuffer
    (List.zipWith (fun ws w => Int.tmod (ws + w) (2 ^ 64)) weightedSecret witnessInts)

/-- `MultivariateZKP.solveMultivariateSystem(secret, polynomialSystem)`:
deserialize the system, split the secret in
`min(system[0].length, 16)` integers, and evaluate every equation as
`sum_i sum_j c[i][j] * value[i] ^ j` with stepwise reduction modulo
`2 ** 64`, packing the per-equation results. -/
def mvSolveSystem (deser : Buf → List (List (List Int))) (secret : Buf)
    (polynomialSystem : Buf) : Buf :=
  let system := deser polynomialSystem
  let secretInts := bufferToBigInts secret (min (system.headD []).length 16)
  let solution := system.map fun equation =>
    (List.range (min equation.length secretInts.length)).foldl
      (fun result i =>
        let polynomial := equation.getD i []
        let value := secretInts.getD i 0
        let polyResult := (List.range polynomial.length).foldl
          (fun pr j => Int.tmod (pr + polynomial.getD j 0 * value ^ j) (2 ^ 64)) 0
        Int.tmod (result + polyResult) (2 ^ 64)) 0
  bigIntsToBuffer solution

/-- `MultivariateZKP.validateProofStructure(proof)`. -/
def mvValidateProofStructure (p : MultivariateProof) : Bool :=
  p.ptype == "multivariate" && decide (0 < p.nVars) && decide (0 < p.nEqs)

/-- `MultivariateZKP.verifyPolynomialSolution(proof)`: sentinel on the
solution, non-empty solution, and all `equations` unpacked integers in
`[0, 2 ** 64]`. -/
def mvVerifyPolynomialSolution (p : MultivariateProof) : Bool :=
  if hasCorrupted p.solution then false
  else if p.solution.isEmpty then false
  else
    (bufferToBigInts p.solution p.nEqs.toNat).all fun v =>
      decide (0 ≤ v) && decide (v ≤ 2 ^ 64)

/-- `MultivariateZKP.verifyProof(proof)` in source order: structure,
sentinels, 32-byte commitment, polynomial solution, zero-knowledge
digest inequality. -/
def mvVerifyProof (H : Buf → Buf) (p : MultivariateProof) : Bool :=
  if mvValidateProofStructure p = false then false
  else if hasCorrupted p.response || hasCorrupted p.challenge ||
    hasCorrupted p.commitment then false
  else if (p.commitment.length == 32) = false then false
  else if mvVerifyPolynomialSolution p = false then false
  else if H p.response == H p.challenge then false
  else true

/-- The proof record built by `MultivariateZKP.createProof` once
parameter validation has passed (`witness` is the 32 random bytes,
`sysTape` drives the system coefficients). -/
def mvMkProof (H : Buf → Buf) (serial : List (List (List Int)) → Buf)
    (deser : Buf → List (List (List Int))) (secret witness : Buf)
    (sysTape : List Nat) (nVars nEqs : Int) : MultivariateProof :=
  let polynomialSystem := mvGenerateSystem serial sysTape nVars.toNat nEqs.toNat 2
  let commitment := mvCreateCommitment H secret polynomialSystem
  let challenge := mvGenerateChallenge H commitment witness polynomialSystem
  let response := mvCreateResponse secret witness challenge
  let solution := mvSolveSystem deser secret polynomialSystem
  { ptype := "multivariate", commitment := commitment, challenge := challenge,
    response := response, nVars := nVars, nEqs := nEqs,
    polynomialSystem := polynomialSystem, solution := solution }

/-- `MultivariateZKP.createProof(secret, parameters)`: `variables` is
`parameters?.variables || 8`, `equations` is
`parameters?.equations || 12` (the falsy value `0` falls back), degree is
the constant 2. -/
def mvCreateProof (H : Buf → Buf) (serial : List (List (List Int)) → Buf)
    (deser : Buf → List (List (List Int))) (secret witness : Buf)
    (sysTape : List Nat) (pVars pEqs : Option Int) :
    Except String MultivariateProof :=
  let nVars : Int :=
    match pVars with
    | none => 8
    | some v => if v == 0 then 8 else v
  let nEqs : Int :=
    match pEqs with
    | none => 12
    | some v => if v == 0 then 12 else v
  if validateMultivariateParameters nVars nEqs = false then
    .error "Invalid multivariate parameters"
  else .ok (mvMkProof H serial deser secret witness sysTape nVars nEqs)

/-!  ## Hybrid engine (`HybridZKP`, src/algorithms/hybrid.ts) -/

/-- The randomness consumed by `HybridZKP.createProof` with the default
component list: one bundle per base engine plus the hybrid witness. -/
structure HybridRand where
  latPrime : Int
  latTape : List Nat
  latLweErr : Int
  latCommitErr : Int
  latWitness : Buf
  latPolyTape : List Nat
  hashWitness : Buf
  hashSeed : Buf
  mvWitness : Buf
  mvTape : List Nat
  hybWitness : Buf

/-- `HybridZKP.generateComponentProofs(secret, algorithms)`: each base
engine is invoked with the secret and no parameters (so with its
defaults); an unsupported tag throws.  A repeated tag reuses the same
randomness bundle in this model (the default algorithm list has no
repetition). -/
def hybridComponentProofs (H : Buf → Buf) (Hm : Buf → Buf → Buf)
    (serial : List (List (List Int)) → Buf)
    (deser : Buf → List (List (List Int))) (secret : Buf) (r : HybridRand) :
    List AlgorithmType → Except String (List ComponentProof)
  | [] => .ok []
  | t :: ts => do
      let c ←
        match t with
        | .lattice =>
            (latticeCreateProof H secret none none r.latPrime r.latTape
              r.latLweErr r.latCommitErr r.latWitness r.latPolyTape).map
              ComponentProof.lat
        | .hash =>
            (hashCreateProof H Hm secret r.hashWitness r.hashSeed none).map
              ComponentProof.hsh
        | .multivariate =>
            (mvCreateProof H serial deser secret r.mvWitness r.mvTape
              none none).map ComponentProof.mv
        | .hybrid => .error "Unsupported algorithm: hybrid"
      let cs ← hybridComponentProofs H Hm serial deser secret r ts
      return c :: cs

/-- The proof record built by `HybridZKP.createProof` from the component
proofs: `createHybridCommitment`, `generateHybridChallenge`,
`createHybridResponse` and `combineProofs` composed as in the source
(the component list is non-empty whenever validation has passed, so the
inner `combineHashes` calls cannot throw and are the total fold). -/
def hybridMkProof (H : Buf → Buf) (Hm : Buf → Buf → Buf) (secret : Buf)
    (comps : List ComponentProof) (witness : Buf)
    (weightsBytes : String → Buf) : HybridProof :=
  let secretHash := H secret
  let commitment :=
    H (combineHashes1 H (comps.map fun c => H (componentCommitment c)) ++
      secretHash)
  let challenge :=
    H (commitment ++ witness ++ combineHashes1 H (comps.map componentCommitment))
  let response :=
    H (witness ++ Hm challenge secretHash ++
      combineHashes1 H (comps.map componentResponse))
  let combined := combineHashes1 H (comps.map fun c =>
    H (componentCommitment c ++ componentResponse c ++
      weightsBytes (componentPtype c)))
  { ptype := "hybrid", commitment := commitment, challenge := challenge,
    response := response, proofs := comps, combined := combined,
    algorithmWeights := weightsBytes }

/-- `HybridZKP.createProof(secret, parameters)`: the algorithm list is
`parameters?.algorithms || [lattice, hash, multivariate]` (an array is
always truthy in JavaScript, even empty, so `Option.getD` is exact),
weights default similarly.  Component creation errors propagate. -/
def hybridCreateProof (H : Buf → Buf) (Hm : Buf → Buf → Buf)
    (serial : List (List (List Int)) → Buf)
    (deser : Buf → List (List (List Int))) (secret : Buf) (r : HybridRand)
    (weightsBytes : String → Buf) (pAlgs : Option (List AlgorithmType)) :
    Except String HybridProof :=
  let algorithms := pAlgs.getD
    [AlgorithmType.lattice, AlgorithmType.hash, AlgorithmType.multivariate]
  if validateHybridParameters algorithms = false then
    .error "Invalid hybrid parameters"
  else do
    let comps ← hybridComponentProofs H Hm serial deser secret r algorithms
    if comps.isEmpty then .error "Cannot combine empty hash array"
    else return hybridMkProof H Hm secret comps r.hybWitness weightsBytes

/-- `HybridZKP.verifyComponentProof(proof)`: dispatch on the type tag.
The source switches on the `type` string; each base verifier itself
rejects a mismatched tag, so dispatching on the component shape is
extensionally the same. -/
def verifyComponentProof (H : Buf → Buf) : ComponentProof → Bool
  | .lat p => latticeVerifyProof H p
  | .hsh p => hashVerifyProof H p
  | .mv p => mvVerifyProof H p

/-- `HybridZKP.validateProofStructure(proof)`: tag and a non-empty
component list (the remaining checks hold by typing). -/
def hybridValidateProofStructure (p : HybridProof) : Bool :=
  p.ptype == "hybrid" && decide (0 < p.proofs.length)

/-- `HybridZKP.verifyProof(proof)` in source order: structure, sentinels,
every component proof under its own verifier, the 32-byte hybrid
commitment, the zero-knowledge digest inequality, and the non-empty
sentinel-free combined digest. -/
def hybridVerifyProof (H : Buf → Buf) (p : HybridProof) : Bool :=
  if hybridValidateProofStructure p = false then false
  else if hasCorrupted p.response || hasCorrupted p.challenge ||
    hasCorrupted p.commitment then false
  else if (p.proofs.all fun c => verifyComponentProof H c) = false then false
  else if (p.commitment.length == 32) = false then false
  else if H p.response == H p.challenge then false
  else if p.combined.isEmpty then false
  else if hasCorrupted p.combined then false
  else true

/-!  ## Concrete digest instances

The theorems below are parametric in the external digest `H`; these
executable stand-ins are used to evaluate them on concrete inputs.  They
share the shape guarantees assumed of SHA-256 (32 byte-valued output; or
injectivity, for the Merkle refutations), not its cryptographic
strength. -/

/-- A cheap deterministic 32-byte digest: 31 zero bytes and one folded
byte in `[1, 255]`. -/
def cHash (l : Buf) : Buf :=
  List.replicate 31 0 ++ [l.foldl (fun a b => (a * 3 + b + 1) % 255) 5 % 255 + 1]

/-- A cheap deterministic HMAC: digest of key followed by data. -/
def cHmac (data key : Buf) : Buf :=
  cHash (key ++ data)

/-- An injective encoding of a byte string into one number, via the
Cantor pairing function. -/
def pairEnc : Buf → Nat
  | [] => 0
  | a :: t => Nat.pair a (pairEnc t) + 1

/-- An injective digest (single-entry output), used to evaluate the
Merkle theorems that assume collision-free hashing. -/
def pairHash (l : Buf) : Buf :=
  [pairEnc l]

/-- A fixed randomness bundle used to evaluate the completeness theorems
at a concrete input. -/
def sampleRand : HybridRand :=
  { latPrime := 256 ^ 33, latTape := [], latLweErr := 0, latCommitErr := 0,
    latWitness := List.replicate 32 1, latPolyTape := [],
    hashWitness := List.replicate 32 1, hashSeed := List.replicate 16 2,
    mvWitness := List.replicate 32 3, mvTape := [],
    hybWitness := List.replicate 32 4 }

/-- A concrete serializer instance (the JSON rendering is external; with
the empty tape below only its composite with `sampleDeser` matters). -/
def sampleSerial : List (List (List Int)) → Buf := fun _ => []

/-- A concrete deserializer returning the system generated from the empty
tape, so that the JSON round-trip hypothesis holds definitionally. -/
def sampleDeser : Buf → List (List (List Int)) := fun _ =>
  mvRawSystem [] 8 12 2

/-- A concrete weight rendering (the ASCII bytes of `0`). -/
def sampleWeights : String → Buf := fun _ => [48]

/-!  ## Helper lemmas: big-endian byte encoding -/

theorem beBytesToNat_foldl (l : Buf) (acc : Nat) :
    l.foldl (fun a b => a * 256 + b) acc =
      acc * 256 ^ l.length + beBytesToNat l := by
  induction l generalizing acc with
  | nil => simp [beBytesToNat]
  | cons b t ih =>
      simp only [List.foldl_cons, beBytesToNat, List.length_cons]
      rw [ih (acc * 256 + b), ih (0 * 256 + b)]
      ring

theorem beBytesToNat_cons (b : Nat) (t : Buf) :
    beBytesToNat (b :: t) = b * 256 ^ t.length + beBytesToNat t := by
  simp only [beBytesToNat, List.foldl_cons]
  simpa using beBytesToNat_foldl t b

theorem beBytesToNat_append_singleton (l : Buf) (b : Nat) :
    beBytesToNat (l ++ [b]) = beBytesToNat l * 256 + b := by
  simp only [beBytesToNat, List.foldl_append, List.foldl_cons, List.foldl_nil]

theorem beBytesToNat_eq_zero_iff (l : Buf) :
    beBytesToNat l = 0 ↔ ∀ b ∈ l, b = 0 := by
  induction l with
  | nil => simp [beBytesToNat]
  | cons b t ih =>
      rw [beBytesToNat_cons]
      constructor
      · intro h
        have hb : b * 256 ^ t.length = 0 := by omega
        have hbz : b = 0 := by
          rcases Nat.mul_eq_zero.mp hb with h1 | h1
          · exact h1
          · exact absurd h1 (Nat.pos_pow_of_pos _ (by norm_num)).ne'
        intro x hx
        rcases List.mem_cons.mp hx with rfl | hx
        · exact hbz
        · exact (ih.mp (by omega)) x hx
      · intro h
        have hb : b = 0 := h b (List.mem_cons_self _ _)
        have ht : beBytesToNat t = 0 := ih.mpr fun x hx => h x (List.mem_cons_of_mem _ hx)
        simp [hb, ht]

theorem beBytesToNat_lt (l : Buf) (h : ∀ b ∈ l, b < 256) :
    beBytesToNat l < 256 ^ l.length := by
  induction l with
  | nil => simp [beBytesToNat]
  | cons b t ih =>
      rw [beBytesToNat_cons]
      have hb : b < 256 := h b (List.mem_cons_self _ _)
      have ht : beBytesToNat t < 256 ^ t.length :=
        ih fun x hx => h x (List.mem_cons_of_mem _ hx)
      have : b * 256 ^ t.length + beBytesToNat t < (b + 1) * 256 ^ t.length := by
        nlinarith [Nat.pos_pow_of_pos t.length (show 0 < 256 by norm_num)]
      calc b * 256 ^ t.length + beBytesToNat t
          < (b + 1) * 256 ^ t.length := this
        _ ≤ 256 * 256 ^ t.length := by
            exact Nat.mul_le_mul_right _ (by omega)
        _ = 256 ^ (t.length + 1) := by ring
        _ = 256 ^ (b :: t).length := by simp

theorem natToBEAuxF_congr (fuel1 : Nat) :
    ∀ fuel2 v, v ≤ fuel1 → v ≤ fuel2 →
      natToBEAuxF fuel1 v = natToBEAuxF fuel2 v := by
  induction fuel1 with
  | zero =>
      intro fuel2 v h1 _
      have hv : v = 0 := Nat.le_zero.mp h1
      subst hv
      cases fuel2 <;> rfl
  | succ f ih =>
      intro fuel2 v h1 h2
      cases v with
      | zero => cases fuel2 <;> rfl
      | succ w =>
          cases fuel2 with
          | zero => omega
          | succ f2 =>
              show natToBEAuxF f ((w + 1) / 256) ++ [(w + 1) % 256] =
                natToBEAuxF f2 ((w + 1) / 256) ++ [(w + 1) % 256]
              have hlt : (w + 1) / 256 < w + 1 :=
                Nat.div_lt_self (by omega) (by norm_num)
              rw [ih f2 ((w + 1) / 256) (by omega) (by omega)]

theorem natToBEAux_eq (v : Nat) :
    natToBEAux v = if v = 0 then [] else natToBEAux (v / 256) ++ [v % 256] := by
  unfold natToBEAux
  cases v with
  | zero => rfl
  | succ w =>
      simp only [Nat.succ_ne_zero, if_false]
      show natToBEAuxF w ((w + 1) / 256) ++ [(w + 1) % 256] = _
      have hlt : (w + 1) / 256 < w + 1 :=
        Nat.div_lt_self (by omega) (by norm_num)
      rw [natToBEAuxF_congr w ((w + 1) / 256) ((w + 1) / 256) (by omega)
        (le_refl _)]

theorem natToBEAux_spec (v : Nat) : beBytesToNat (natToBEAux v) = v := by
  induction v using Nat.strong_induction_on with
  | _ v ih =>
      rw [natToBEAux_eq]
      by_cases h : v = 0
      · simp [h, beBytesToNat]
      · simp only [h, if_false]
        rw [beBytesToNat_append_singleton,
          ih (v / 256) (Nat.div_lt_self (Nat.pos_of_ne_zero h) (by norm_num))]
        omega

theorem natToBEBytes_spec (v : Nat) : beBytesToNat (natToBEBytes v) = v := by
  unfold natToBEBytes
  by_cases h : v = 0
  · simp [h, beBytesToNat]
  · simp [h, natToBEAux_spec]

theorem natToBEAux_bytes_lt (v : Nat) : ∀ b ∈ natToBEAux v, b < 256 := by
  induction v using Nat.strong_induction_on with
  | _ v ih =>
      rw [natToBEAux_eq]
      by_cases h : v = 0
      · simp [h]
      · simp only [h, if_false]
        intro b hb
        rcases List.mem_append.mp hb with hb | hb
        · exact ih (v / 256) (Nat.div_lt_self (Nat.pos_of_ne_zero h) (by norm_num)) b hb
        · rcases List.mem_singleton.mp hb with rfl
          exact Nat.mod_lt _ (by norm_num)

theorem natToBEBytes_bytes_lt (v : Nat) : ∀ b ∈ natToBEBytes v, b < 256 := by
  unfold natToBEBytes
  by_cases h : v = 0
  · simp [h]
  · simp only [h, if_false]
    exact natToBEAux_bytes_lt v

theorem natToBEAux_length_le (k : Nat) :
    ∀ v, v < 256 ^ k → (natToBEAux v).length ≤ k := by
  induction k with
  | zero =>
      intro v hv
      have : v = 0 := by simpa using hv
      rw [natToBEAux_eq]
      simp [this]
  | succ k ih =>
      intro v hv
      rw [natToBEAux_eq]
      by_cases h : v = 0
      · simp [h]
      · simp only [h, if_false, List.length_append, List.length_singleton]
        have : v / 256 < 256 ^ k := by
          rw [Nat.div_lt_iff_lt_mul (by norm_num)]
          calc v < 256 ^ (k + 1) := hv
            _ = 256 ^ k * 256 := by ring
        have := ih (v / 256) this
        omega

theorem natToBEBytes_length_le (k v : Nat) (hk : 1 ≤ k) (hv : v < 256 ^ k) :
    (natToBEBytes v).length ≤ k := by
  unfold natToBEBytes
  by_cases h : v = 0
  · simp [h]; omega
  · simp only [h, if_false]
    exact natToBEAux_length_le k v hv

theorem natToBEBytes_ne_nil (v : Nat) : natToBEBytes v ≠ [] := by
  unfold natToBEBytes
  by_cases h : v = 0
  · simp [h]
  · simp only [h, if_false]
    rw [natToBEAux_eq]
    simp [h]

theorem natToBEBytes_length_pos (v : Nat) : 0 < (natToBEBytes v).length :=
  List.length_pos.mpr (natToBEBytes_ne_nil v)

theorem intToBEBytes_of_nonneg (v : Int) (h : 0 ≤ v) :
    intToBEBytes v = natToBEBytes v.toNat := by
  unfold intToBEBytes
  simp [not_lt.mpr h]

theorem intToBEBytes_spec (v : Int) (h : 0 ≤ v) :
    (beBytesToNat (intToBEBytes v) : Int) = v := by
  rw [intToBEBytes_of_nonneg v h, natToBEBytes_spec]
  omega

/-!  ## Helper lemmas: buffer slicing -/

theorem bufferToBigInts_length (b : Buf) (n : Nat) :
    (bufferToBigInts b n).length = n := by
  simp [bufferToBigInts]

theorem bufferToBigInts_getD (b : Buf) (n i : Nat) (h : i < n) :
    (bufferToBigInts b n).getD i 0 =
      if (sliceOf b n i).isEmpty then 0 else (beBytesToNat (sliceOf b n i) : Int) := by
  simp [bufferToBigInts, List.getD_eq_getElem?_getD, List.getElem?_map,
    List.getElem?_range h]

theorem sliceOf_value (b : Buf) (n i : Nat) :
    (if (sliceOf b n i).isEmpty then (0 : Int)
      else (beBytesToNat (sliceOf b n i) : Int)) =
      (beBytesToNat (sliceOf b n i) : Int) := by
  by_cases h : (sliceOf b n i).isEmpty
  · rcases List.isEmpty_iff.mp h with h2
    simp [h, h2, beBytesToNat]
  · simp [h]

theorem bufferToBigInts_getD_value (b : Buf) (n i : Nat) (h : i < n) :
    (bufferToBigInts b n).getD i 0 = (beBytesToNat (sliceOf b n i) : Int) := by
  rw [bufferToBigInts_getD b n i h, sliceOf_value]

theorem bufferToBigInts_nonneg (b : Buf) (n : Nat) :
    ∀ v ∈ bufferToBigInts b n, 0 ≤ v := by
  intro v hv
  simp only [bufferToBigInts, List.mem_map] at hv
  obtain ⟨i, _, rfl⟩ := hv
  by_cases h : (sliceOf b n i).isEmpty <;> simp [h]

theorem bytesPerIntOf_pos (len n : Nat) (hlen : 0 < len) (hn : 0 < n) :
    0 < bytesPerIntOf len n := by
  unfold bytesPerIntOf
  have := (Nat.one_le_div_iff hn).mpr (show n ≤ len + n - 1 by omega)
  omega

theorem bytesPerIntOf_cover (len n : Nat) (hn : 0 < n) :
    len ≤ n * bytesPerIntOf len n := by
  unfold bytesPerIntOf
  have h1 := Nat.div_add_mod (len + n - 1) n
  have h2 := Nat.mod_lt (len + n - 1) hn
  have h3 : len + n - 1 + 1 = len + n := by omega
  linarith

theorem sliceOf_getD (b : Buf) (n i j : Nat)
    (hj : j < bytesPerIntOf b.length n)
    (hind : i * bytesPerIntOf b.length n + j < b.length) :
    (sliceOf b n i).getD j 0 = b.getD (i * bytesPerIntOf b.length n + j) 0 := by
  unfold sliceOf
  have hlen : j < ((b.drop (i * bytesPerIntOf b.length n)).take
      (bytesPerIntOf b.length n)).length := by
    simp only [List.length_take, List.length_drop]
    omega
  have hlen2 : j < (b.drop (i * bytesPerIntOf b.length n)).length := by
    simp only [List.length_drop]; omega
  rw [List.getD_eq_getElem?_getD, List.getElem?_eq_getElem hlen,
    List.getElem_take, List.getElem_drop,
    List.getD_eq_getElem?_getD, List.getElem?_eq_getElem hind]

/-- If some byte of the buffer is non-zero, some ceiling-division slice
has a non-zero big-endian value (the slices cover the buffer). -/
theorem slice_cover_nonzero (b : Buf) (n : Nat) (hn : 0 < n)
    (p : Nat) (hp : p < b.length) (hb : b.getD p 0 ≠ 0) :
    ∃ i < n, beBytesToNat (sliceOf b n i) ≠ 0 := by
  set bpi := bytesPerIntOf b.length n with hbpi
  have hbpos : 0 < bpi := bytesPerIntOf_pos b.length n (by omega) hn
  refine ⟨p / bpi, ?_, ?_⟩
  · by_contra hc
    push_neg at hc
    have h2 : n * bpi ≤ p / bpi * bpi := Nat.mul_le_mul_right bpi hc
    have h3 : p / bpi * bpi ≤ p := Nat.div_mul_le_self p bpi
    have hcov : b.length ≤ n * bpi := bytesPerIntOf_cover b.length n hn
    omega
  · set i := p / bpi with hi
    set j := p % bpi with hj
    have hjlt : j < bpi := Nat.mod_lt p hbpos
    have hij : i * bpi + j = p := by
      rw [hi, hj, Nat.mul_comm]
      exact Nat.div_add_mod p bpi
    intro hz
    have hmem : b.getD p 0 ∈ sliceOf b n i := by
      have hsg := sliceOf_getD b n i j hjlt (by rw [hij]; exact hp)
      rw [hij] at hsg
      rw [← hsg]
      have hlen : j < (sliceOf b n i).length := by
        unfold sliceOf
        simp only [List.length_take, List.length_drop, ← hbpi]
        omega
      rw [List.getD_eq_getElem?_getD, List.getElem?_eq_getElem hlen]
      exact List.getElem_mem _
    exact hb ((beBytesToNat_eq_zero_iff _).mp hz _ hmem)

/-- The rational ceiling of `len / n` is the natural ceiling division. -/
theorem ceil_div_natCast (len n : Nat) (hn : 0 < n) :
    Int.ceil ((len : ℚ) / (n : ℚ)) = (((len + n - 1) / n : Nat) : Int) := by
  have hq : (0 : ℚ) < (n : ℚ) := by positivity
  set Z : Nat := (len + n - 1) / n with hZ
  have hA : Z * n ≤ len + n - 1 := Nat.div_mul_le_self _ _
  have hB : len ≤ Z * n := by
    have h := bytesPerIntOf_cover len n hn
    unfold bytesPerIntOf at h
    rw [Nat.mul_comm] at h
    exact h
  have hA1 : Z * n + 1 ≤ len + n := by omega
  have hA2 : (Z : ℚ) * n + 1 ≤ (len : ℚ) + n := by exact_mod_cast hA1
  have hB2 : (len : ℚ) ≤ (Z : ℚ) * n := by exact_mod_cast hB
  rw [Int.ceil_eq_iff]
  constructor
  · rw [lt_div_iff₀ hq]
    push_cast
    linarith
  · rw [div_le_iff₀ hq]
    push_cast
    linarith

theorem bufferToBigIntsFrac_natCast (b : Buf) (n : Nat) (hn : 0 < n) :
    bufferToBigIntsFrac b (n : ℚ) = bufferToBigInts b n := by
  unfold bufferToBigIntsFrac bufferToBigInts
  have hq : ¬((n : ℚ) ≤ 0) := not_le.mpr (by positivity)
  simp only [hq, if_false, Int.ceil_natCast, Int.toNat_natCast,
    ceil_div_natCast b.length n hn]
  unfold sliceOf bytesPerIntOf
  simp

/-!  ## Helper lemmas: hash chains -/

theorem createHashChain_length (H : Buf → Buf) (s : Buf) (n : Nat) :
    (createHashChain H s n).length = n := by
  induction n generalizing s with
  | zero => simp [createHashChain]
  | succ n ih => simp [createHashChain, ih]

theorem createHashChain_getD_zero (H : Buf → Buf) (s : Buf) (n : Nat)
    (hn : 0 < n) : (createHashChain H s n).getD 0 [] = H s := by
  cases n with
  | zero => omega
  | succ n => simp [createHashChain]

theorem createHashChain_headD (H : Buf → Buf) (s : Buf) (n : Nat)
    (hn : 0 < n) : (createHashChain H s n).headD [] = H s := by
  cases n with
  | zero => omega
  | succ n => simp [createHashChain]

theorem createHashChain_link (H : Buf → Buf) :
    ∀ (n : Nat) (s : Buf) (i : Nat), i + 1 < n →
      (createHashChain H s n).getD (i + 1) [] =
        H ((createHashChain H s n).getD i []) := by
  intro n
  induction n with
  | zero => intro s i h; omega
  | succ n ih =>
      intro s i h
      cases i with
      | zero =>
          simp only [createHashChain, List.getD_cons_succ, List.getD_cons_zero]
          rw [createHashChain_getD_zero H (H s) n (by omega)]
      | succ k =>
          simp only [createHashChain, List.getD_cons_succ]
          exact ih (H s) k (by omega)

theorem hashVerifyHashChain_createHashChain (H : Buf → Buf) (s : Buf)
    (n : Nat) (hn : 2 ≤ n) :
    hashVerifyHashChain H (createHashChain H s n) = true := by
  unfold hashVerifyHashChain
  rw [createHashChain_length]
  simp only [show ¬(n < 2) by omega, if_false, List.all_eq_true]
  intro i hi
  rw [List.mem_range] at hi
  rw [createHashChain_link H n s i (by omega)]
  simp

/-!  ## Helper lemmas: Merkle trees -/

theorem headD_eq_getD_zero (l : List Buf) : l.headD [] = l.getD 0 [] := by
  cases l <;> rfl

theorem merklePair_length (H : Buf → Buf) :
    ∀ l : List Buf, (merklePair H l).length = (l.length + 1) / 2
  | [] => by simp [merklePair]
  | [x] => by simp [merklePair]
  | x :: y :: rest => by
      simp only [merklePair, List.length_cons, merklePair_length H rest]
      omega

theorem merklePair_getD (H : Buf → Buf) :
    ∀ (l : List Buf) (j : Nat), 2 * j + 1 < l.length →
      (merklePair H l).getD j [] = H (l.getD (2 * j) [] ++ l.getD (2 * j + 1) [])
  | [], j, h => by simp at h
  | [x], j, h => by simp at h
  | x :: y :: rest, 0, h => by simp [merklePair]
  | x :: y :: rest, j + 1, h => by
      have h1 : 2 * (j + 1) = 2 * j + 1 + 1 := by ring
      have h2 : 2 * (j + 1) + 1 = 2 * j + 1 + 1 + 1 := by ring
      simp only [merklePair, List.getD_cons_succ, h1, h2]
      exact merklePair_getD H rest j (by simp at h; omega)

theorem buildLevelsAux_ne_nil (H : Buf → Buf) (fuel : Nat) (lvl : List Buf) :
    buildLevelsAux H fuel lvl ≠ [] := by
  cases fuel with
  | zero => simp [buildLevelsAux]
  | succ fuel =>
      unfold buildLevelsAux
      by_cases h : lvl.length ≤ 1 <;> simp [h]

theorem merkleRootOf_cons (lvl : List Buf) (rest : List (List Buf))
    (h : rest ≠ []) : merkleRootOf (lvl :: rest) = merkleRootOf rest := by
  unfold merkleRootOf
  rw [List.getLastD_cons, List.getLastD_eq_getLast?, List.getLastD_eq_getLast?,
    List.getLast?_eq_getLast rest h]
  simp

theorem merkle_single_level (H : Buf → Buf) (lvl : List Buf)
    (h1 : lvl.length = 1) :
    merkleFoldPath H (lvl.getD 0 []) 0 (generateMerkleProof [lvl] 0) =
      merkleRootOf [lvl] := by
  cases lvl with
  | nil => simp at h1
  | cons a t =>
      have : t = [] := by simpa using h1
      subst this
      simp [generateMerkleProof, merkleFoldPath, merkleRootOf]

/-- Whenever every level along the path offers a sibling, folding the
generated proof path from the indexed leaf reproduces the root. -/
theorem merkle_path_spec (H : Buf → Buf) :
    ∀ (fuel : Nat) (lvl : List Buf) (i : Nat),
      lvl.length ≤ fuel + 1 → i < lvl.length →
      pathComplete H fuel lvl i = true →
      merkleFoldPath H (lvl.getD i []) i
        (generateMerkleProof (buildLevelsAux H fuel lvl) i) =
        merkleRootOf (buildLevelsAux H fuel lvl) := by
  intro fuel
  induction fuel with
  | zero =>
      intro lvl i hfuel hi _
      have h1 : lvl.length = 1 := by omega
      have h0 : i = 0 := by omega
      subst h0
      have hb : buildLevelsAux H 0 lvl = [lvl] := rfl
      rw [hb]
      exact merkle_single_level H lvl h1
  | succ fuel ih =>
      intro lvl i hfuel hi hpath
      by_cases hlen : lvl.length ≤ 1
      · have h1 : lvl.length = 1 := by omega
        have h0 : i = 0 := by omega
        subst h0
        have hb : buildLevelsAux H (fuel + 1) lvl = [lvl] := by
          unfold buildLevelsAux
          simp [hlen]
        rw [hb]
        exact merkle_single_level H lvl h1
      · -- at least two nodes at this level
        have hlen2 : 2 ≤ lvl.length := by omega
        unfold pathComplete at hpath
        simp only [hlen, if_false, Bool.and_eq_true, decide_eq_true_eq] at hpath
        obtain ⟨hsib, hrec⟩ := hpath
        unfold buildLevelsAux
        simp only [hlen, if_false]
        set next := merklePair H lvl with hnext
        have hnlen : next.length = (lvl.length + 1) / 2 := merklePair_length H lvl
        have hrestne : buildLevelsAux H fuel next ≠ [] := buildLevelsAux_ne_nil H fuel next
        obtain ⟨next2, rest2, hrest⟩ : ∃ a t, buildLevelsAux H fuel next = a :: t := by
          cases hx : buildLevelsAux H fuel next with
          | nil => exact absurd hx hrestne
          | cons a t => exact ⟨a, t, rfl⟩
        rw [hrest]
        unfold generateMerkleProof
        rw [← hrest]
        have hfold :
            merkleFoldPath H (lvl.getD i []) i
              (((if (if i % 2 == 1 then i - 1 else i + 1) < lvl.length then
                [lvl.getD (if i % 2 == 1 then i - 1 else i + 1) []] else []) ++
                generateMerkleProof (buildLevelsAux H fuel next) (i / 2))) =
            merkleFoldPath H (next.getD (i / 2) []) (i / 2)
              (generateMerkleProof (buildLevelsAux H fuel next) (i / 2)) := by
          rcases Nat.mod_two_eq_zero_or_one i with hpar | hpar
          · -- even index: sibling on the right
            have hif : ((i % 2 == 1) : Bool) = false := by simp [hpar]
            simp only [hif, Bool.false_eq_true, if_false] at hsib ⊢
            simp only [hsib, if_true, List.singleton_append, merkleFoldPath, hif]
            have hj : next.getD (i / 2) [] =
                H (lvl.getD (2 * (i / 2)) [] ++ lvl.getD (2 * (i / 2) + 1) []) :=
              merklePair_getD H lvl (i / 2) (by omega)
            have hieq : 2 * (i / 2) = i := by omega
            rw [hj, hieq]
            simp
          · -- odd index: sibling on the left
            have hif : ((i % 2 == 1) : Bool) = true := by simp [hpar]
            have hsib2 : i - 1 < lvl.length := by omega
            simp only [hif, if_true] at hsib ⊢
            simp only [hsib, if_true, List.singleton_append, merkleFoldPath, hif]
            have hj : next.getD (i / 2) [] =
                H (lvl.getD (2 * (i / 2)) [] ++ lvl.getD (2 * (i / 2) + 1) []) :=
              merklePair_getD H lvl (i / 2) (by omega)
            have hieq1 : 2 * (i / 2) = i - 1 := by omega
            have hieq2 : 2 * (i / 2) + 1 = i := by omega
            rw [hj, hieq2, hieq1]
        rw [hfold]
        rw [merkleRootOf_cons lvl (buildLevelsAux H fuel next) hrestne]
        exact ih next (i / 2) (by omega) (by omega) hrec

theorem pathComplete_zero (H : Buf → Buf) :
    ∀ (fuel : Nat) (lvl : List Buf), pathComplete H fuel lvl 0 = true := by
  intro fuel
  induction fuel with
  | zero => intro lvl; rfl
  | succ fuel ih =>
      intro lvl
      unfold pathComplete
      by_cases h : lvl.length ≤ 1
      · simp [h]
      · simp only [h, if_false, Bool.and_eq_true, decide_eq_true_eq]
        exact ⟨by norm_num; omega, ih (merklePair H lvl)⟩

theorem pathComplete_pow2 (H : Buf → Buf) :
    ∀ (fuel k : Nat) (lvl : List Buf) (i : Nat),
      lvl.length = 2 ^ k → i < 2 ^ k → pathComplete H fuel lvl i = true := by
  intro fuel
  induction fuel with
  | zero => intro k lvl i _ _; rfl
  | succ fuel ih =>
      intro k lvl i hlen hi
      unfold pathComplete
      by_cases h : lvl.length ≤ 1
      · simp [h]
      · simp only [h, if_false, Bool.and_eq_true, decide_eq_true_eq]
        cases k with
        | zero => simp [hlen] at h
        | succ k2 =>
            have hpow : (2 : Nat) ^ (k2 + 1) = 2 ^ k2 * 2 := by ring
            have hnlen : (merklePair H lvl).length = 2 ^ k2 := by
              rw [merklePair_length H lvl, hlen, hpow]
              omega
            constructor
            · rcases Nat.mod_two_eq_zero_or_one i with hpar | hpar
              · have hif : ((i % 2 == 1) : Bool) = false := by simp [hpar]
                simp only [hif, Bool.false_eq_true, if_false]
                rw [hlen, hpow]
                omega
              · have hif : ((i % 2 == 1) : Bool) = true := by simp [hpar]
                simp only [hif, if_true]
                rw [hlen, hpow]
                omega
            · exact ih k2 (merklePair H lvl) (i / 2) hnlen (by rw [hpow] at hi; omega)

/-- With an injective digest, folding the same proof path from two
different start values gives two different results. -/
theorem merkleFoldPath_ne (H : Buf → Buf) (hinj : Function.Injective H) :
    ∀ (proof : List Buf) (i : Nat) (a b : Buf), a ≠ b →
      merkleFoldPath H a i proof ≠ merkleFoldPath H b i proof := by
  intro proof
  induction proof with
  | nil => intro i a b hab; simpa [merkleFoldPath] using hab
  | cons sib rest ih =>
      intro i a b hab
      simp only [merkleFoldPath]
      apply ih
      intro heq
      have hcomb :
          (if i % 2 == 1 then sib ++ a else a ++ sib) =
            (if i % 2 == 1 then sib ++ b else b ++ sib) := hinj heq
      rcases Nat.mod_two_eq_zero_or_one i with hpar | hpar
      · have hif : ((i % 2 == 1) : Bool) = false := by simp [hpar]
        simp only [hif, Bool.false_eq_true, if_false] at hcomb
        exact hab (List.append_cancel_right hcomb)
      · have hif : ((i % 2 == 1) : Bool) = true := by simp [hpar]
        simp only [hif, if_true] at hcomb
        exact hab (List.append_cancel_left hcomb)

/-- Index 0 verifies against the generated proof for any leaf list. -/
theorem verifyMerkleProof_zero (H : Buf → Buf) (leaves : List Buf)
    (h : leaves ≠ []) :
    verifyMerkleProof H (leaves.getD 0 [])
      (generateMerkleProof (buildLevels H leaves) 0)
      (merkleRootOf (buildLevels H leaves)) 0 = true := by
  unfold verifyMerkleProof buildLevels
  rw [merkle_path_spec H leaves.length leaves 0 (by omega)
    (List.length_pos.mpr h) (pathComplete_zero H leaves.length leaves)]
  simp

/-- Any valid index verifies against the generated proof when the leaf
count is a power of two. -/
theorem verifyMerkleProof_pow2 (H : Buf → Buf) (leaves : List Buf)
    (k i : Nat) (hlen : leaves.length = 2 ^ k) (hi : i < leaves.length) :
    verifyMerkleProof H (leaves.getD i [])
      (generateMerkleProof (buildLevels H leaves) i)
      (merkleRootOf (buildLevels H leaves)) i = true := by
  unfold verifyMerkleProof buildLevels
  rw [merkle_path_spec H leaves.length leaves i (by omega) hi
    (pathComplete_pow2 H leaves.length k leaves i hlen (by omega))]
  simp

/-- With an injective digest, a leaf different from the committed one is
rejected at any index whose honest leaf verifies. -/
theorem verifyMerkleProof_other_leaf (H : Buf → Buf)
    (hinj : Function.Injective H) (leaves : List Buf) (i : Nat)
    (leaf2 : Buf) (hne : leaf2 ≠ leaves.getD i [])
    (hok : verifyMerkleProof H (leaves.getD i [])
      (generateMerkleProof (buildLevels H leaves) i)
      (merkleRootOf (buildLevels H leaves)) i = true) :
    verifyMerkleProof H leaf2
      (generateMerkleProof (buildLevels H leaves) i)
      (merkleRootOf (buildLevels H leaves)) i = false := by
  unfold verifyMerkleProof at hok ⊢
  rw [beq_iff_eq] at hok
  rw [beq_eq_false_iff_ne]
  rw [← hok]
  exact merkleFoldPath_ne H hinj _ i leaf2 (leaves.getD i []) hne

/-- The Cantor-pairing byte-string encoding is injective. -/
theorem pairEnc_injective : Function.Injective pairEnc := by
  intro a
  induction a with
  | nil =>
      intro b hb
      cases b with
      | nil => rfl
      | cons x t => simp [pairEnc] at hb
  | cons x t ih =>
      intro b hb
      cases b with
      | nil => simp [pairEnc] at hb
      | cons y s =>
          simp only [pairEnc, Nat.add_right_cancel_iff] at hb
          have hx := congrArg Nat.unpair hb
          simp only [Nat.unpair_pair] at hx
          obtain ⟨h1, h2⟩ := Prod.mk.injEq _ _ _ _ ▸ hx
          rw [Prod.mk.injEq] at hx
          rw [hx.1, ih hx.2]

/-- The injective digest stand-in is injective. -/
theorem pairHash_injective : Function.Injective pairHash := by
  intro a b hab
  simp only [pairHash, List.cons.injEq, and_true] at hab
  exact pairEnc_injective hab

/-!  ## Hash engine: completeness -/

theorem hashCreateResponse_length (H : Buf → Buf) (Hm : Buf → Buf → Buf)
    (secret witness challenge : Buf) :
    (hashCreateResponse H Hm secret witness challenge).length = 64 := by
  unfold hashCreateResponse
  by_cases h1 : 32 ≤ witness.length <;>
    by_cases h2 : 32 ≤ (Hm challenge (H secret)).length <;>
      simp [h1, h2, List.length_append, List.length_take,
        List.length_replicate] <;> omega

theorem hashMkProof_hashChain (H : Buf → Buf) (Hm : Buf → Buf → Buf)
    (s w sd : Buf) (cl : Int) :
    (hashMkProof H Hm s w sd cl).hashChain =
      createHashChain H (s ++ sd) cl.toNat := rfl

theorem hashMkProof_commitment (H : Buf → Buf) (Hm : Buf → Buf → Buf)
    (s w sd : Buf) (cl : Int) :
    (hashMkProof H Hm s w sd cl).commitment =
      (createHashChain H (s ++ sd) cl.toNat).headD [] := rfl

theorem hashMkProof_challenge (H : Buf → Buf) (Hm : Buf → Buf → Buf)
    (s w sd : Buf) (cl : Int) :
    (hashMkProof H Hm s w sd cl).challenge =
      hashGenerateChallenge H ((createHashChain H (s ++ sd) cl.toNat).headD []) w := rfl

theorem hashMkProof_response (H : Buf → Buf) (Hm : Buf → Buf → Buf)
    (s w sd : Buf) (cl : Int) :
    (hashMkProof H Hm s w sd cl).response =
      hashCreateResponse H Hm s w
        (hashGenerateChallenge H ((createHashChain H (s ++ sd) cl.toNat).headD []) w) := rfl

theorem hashMkProof_commitmentChain (H : Buf → Buf) (Hm : Buf → Buf → Buf)
    (s w sd : Buf) (cl : Int) :
    (hashMkProof H Hm s w sd cl).commitmentChain =
      merkleRootOf (buildLevels H (createHashChain H (s ++ sd) cl.toNat)) := rfl

theorem hashMkProof_merkleProof (H : Buf → Buf) (Hm : Buf → Buf → Buf)
    (s w sd : Buf) (cl : Int) :
    (hashMkProof H Hm s w sd cl).merkleProof =
      some (generateMerkleProof
        (buildLevels H (createHashChain H (s ++ sd) cl.toNat)) 0) := rfl

theorem hashMkProof_structure (H : Buf → Buf) (Hm : Buf → Buf → Buf)
    (s w sd : Buf) (cl : Int) (hcl : 0 < cl) :
    hashValidateProofStructure (hashMkProof H Hm s w sd cl) = true := by
  unfold hashValidateProofStructure hashMkProof
  simp [createHashChain_length, hcl]

theorem hashVerify_mkProof (H : Buf → Buf) (Hm : Buf → Buf → Buf)
    (secret witness randomSeed : Buf) (chainLength : Int)
    (Hlen : ∀ x, (H x).length = 32) (hcl : 2 ≤ chainLength) :
    hashVerifyProof H (hashMkProof H Hm secret witness randomSeed chainLength)
      = true := by
  have hn2 : 2 ≤ chainLength.toNat := by omega
  have hclen := createHashChain_length H (secret ++ randomSeed) chainLength.toNat
  have hne : createHashChain H (secret ++ randomSeed) chainLength.toNat ≠ [] := by
    intro hc
    rw [hc] at hclen
    simp at hclen
    omega
  unfold hashVerifyProof
  rw [hashMkProof_structure H Hm secret witness randomSeed chainLength (by omega)]
  rw [hashMkProof_hashChain, hashMkProof_merkleProof, hashMkProof_commitmentChain,
    hashMkProof_commitment, hashMkProof_response, hashMkProof_challenge]
  simp only [Option.getD_some]
  have hmerkle : verifyMerkleProof H
      ((createHashChain H (secret ++ randomSeed) chainLength.toNat).headD [])
      (generateMerkleProof
        (buildLevels H (createHashChain H (secret ++ randomSeed) chainLength.toNat)) 0)
      (merkleRootOf
        (buildLevels H (createHashChain H (secret ++ randomSeed) chainLength.toNat)))
      0 = true := by
    rw [headD_eq_getD_zero]
    exact verifyMerkleProof_zero H _ hne
  simp only [hmerkle,
    hashVerifyHashChain_createHashChain H (secret ++ randomSeed) chainLength.toNat hn2]
  simp [List.isEmpty_iff, hne, hashCreateResponse_length, hashGenerateChallenge, Hlen]

theorem hash_complete (H : Buf → Buf) (Hm : Buf → Buf → Buf)
    (secret witness randomSeed : Buf) (Hlen : ∀ x, (H x).length = 32) :
    hashCreateProof H Hm secret witness randomSeed none =
      .ok (hashMkProof H Hm secret witness randomSeed 1000) ∧
    hashVerifyProof H (hashMkProof H Hm secret witness randomSeed 1000) = true := by
  constructor
  · unfold hashCreateProof
    have hne : createHashChain H (secret ++ randomSeed) (1000 : Nat) ≠ [] := by
      intro hc
      have := createHashChain_length H (secret ++ randomSeed) (1000 : Nat)
      rw [hc] at this
      simp at this
    simp [validateHashParameters, List.isEmpty_iff, hne]
  · exact hashVerify_mkProof H Hm secret witness randomSeed 1000 Hlen (by norm_num)

/-!  ## Hash engine: effect of corrupting single fields -/

theorem hashVerify_fields (H : Buf → Buf) (p : HashProof)
    (h : hashVerifyProof H p = true) :
    hashValidateProofStructure p = true ∧ p.hashChain.isEmpty = false ∧
    verifyMerkleProof H (p.hashChain.headD []) (p.merkleProof.getD [])
      p.commitmentChain 0 = true ∧
    hashVerifyHashChain H p.hashChain = true ∧
    (p.hashChain.headD [] == p.commitment) = true ∧
    p.response.length = 64 ∧ p.challenge.length = 32 := by
  unfold hashVerifyProof at h
  by_cases h1 : hashValidateProofStructure p = false
  · simp [h1] at h
  rw [Bool.not_eq_false] at h1
  by_cases h2 : p.hashChain.isEmpty
  · simp [h1, h2] at h
  simp [h1, h2] at h
  obtain ⟨hA, hB, hC, hD, hE⟩ := h
  refine ⟨h1, by simp [h2], by simpa using hA, hB, ?_, hD, hE⟩
  simp only [List.headD_eq_head?_getD, beq_iff_eq]
  exact hC

/-- Replacing the commitment of a verifying hash proof with any byte
string different from the chain head makes verification reject. -/
theorem hash_corrupt_commitment (H : Buf → Buf) (p : HashProof) (c2 : Buf)
    (h : hashVerifyProof H p = true) (hne : c2 ≠ p.hashChain.headD []) :
    hashVerifyProof H { p with commitment := c2 } = false := by
  obtain ⟨h1, h2, h3, h4, _, _, _⟩ := hashVerify_fields H p h
  have h3a : verifyMerkleProof H (p.hashChain.head?.getD [])
      (p.merkleProof.getD []) p.commitmentChain 0 = true := by simpa using h3
  have hne2 : ¬(p.hashChain.head?.getD [] = c2) := by
    intro hx
    exact hne (by simpa using hx.symm)
  unfold hashVerifyProof
  simp only [show hashValidateProofStructure { p with commitment := c2 } =
    hashValidateProofStructure p from rfl, h1]
  simp [h2, h3a, h4, hne2]

/-- Replacing the challenge of a verifying hash proof is detected exactly
when the replacement does not have 32 bytes. -/
theorem hash_corrupt_challenge (H : Buf → Buf) (p : HashProof) (ch2 : Buf)
    (h : hashVerifyProof H p = true) :
    hashVerifyProof H { p with challenge := ch2 } = (ch2.length == 32) := by
  obtain ⟨h1, h2, h3, h4, h5, h6, _⟩ := hashVerify_fields H p h
  have h3a : verifyMerkleProof H (p.hashChain.head?.getD [])
      (p.merkleProof.getD []) p.commitmentChain 0 = true := by simpa using h3
  have h5a : p.hashChain.head?.getD [] = p.commitment := by simpa using h5
  have h3b : verifyMerkleProof H p.commitment (p.merkleProof.getD [])
      p.commitmentChain 0 = true := by rw [← h5a]; exact h3a
  unfold hashVerifyProof
  simp only [show hashValidateProofStructure { p with challenge := ch2 } =
    hashValidateProofStructure p from rfl, h1]
  by_cases hb : ch2.length = 32 <;> simp [h2, h3a, h3b, h4, h5a, h6, hb]

/-- Replacing the response of a verifying hash proof is detected exactly
when the replacement does not have 64 bytes. -/
theorem hash_corrupt_response (H : Buf → Buf) (p : HashProof) (r2 : Buf)
    (h : hashVerifyProof H p = true) :
    hashVerifyProof H { p with response := r2 } = (r2.length == 64) := by
  obtain ⟨h1, h2, h3, h4, h5, _, h7⟩ := hashVerify_fields H p h
  have h3a : verifyMerkleProof H (p.hashChain.head?.getD [])
      (p.merkleProof.getD []) p.commitmentChain 0 = true := by simpa using h3
  have h5a : p.hashChain.head?.getD [] = p.commitment := by simpa using h5
  have h3b : verifyMerkleProof H p.commitment (p.merkleProof.getD [])
      p.commitmentChain 0 = true := by rw [← h5a]; exact h3a
  unfold hashVerifyProof
  simp only [show hashValidateProofStructure { p with response := r2 } =
    hashValidateProofStructure p from rfl, h1]
  by_cases hb : r2.length = 64 <;> simp [h2, h3a, h3b, h4, h5a, h7, hb]

/-!  ## Helper lemmas: packing integer vectors -/

theorem tmod_le_self (a b : Int) (ha : 0 ≤ a) (hb : 0 ≤ b) : a.tmod b ≤ a := by
  rcases eq_or_lt_of_le hb with hb0 | hbpos
  · rw [← hb0, Int.tmod_zero]
  · rw [Int.tmod_eq_emod ha hb]
    have h1 : 0 ≤ a / b := Int.ediv_nonneg ha hb
    have h2 := Int.emod_def a b
    nlinarith

theorem mem_zipWith_imp {α : Type} (f : α → α → α) :
    ∀ (l1 l2 : List α) (v : α), v ∈ List.zipWith f l1 l2 →
      ∃ a ∈ l1, ∃ b ∈ l2, v = f a b := by
  intro l1
  induction l1 with
  | nil => intro l2 v hv; simp at hv
  | cons x t ih =>
      intro l2 v hv
      cases l2 with
      | nil => simp at hv
      | cons y s =>
          simp only [List.zipWith_cons_cons, List.mem_cons] at hv
          rcases hv with rfl | hv
          · exact ⟨x, List.mem_cons_self _ _, y, List.mem_cons_self _ _, rfl⟩
          · obtain ⟨a, ha, b, hb, rfl⟩ := ih s v hv
            exact ⟨a, List.mem_cons_of_mem _ ha, b, List.mem_cons_of_mem _ hb, rfl⟩

theorem bigIntsToBuffer_bytes_lt (ints : List Int) :
    ∀ b ∈ bigIntsToBuffer ints, b < 256 := by
  intro b hb
  unfold bigIntsToBuffer at hb
  rw [List.mem_flatten] at hb
  obtain ⟨l, hl, hbl⟩ := hb
  rw [List.mem_map] at hl
  obtain ⟨v, _, rfl⟩ := hl
  unfold intToBEBytes at hbl
  by_cases hv : v < 0
  · simp [hv] at hbl
  · simp only [hv, if_false] at hbl
    exact natToBEBytes_bytes_lt _ b hbl

theorem bigIntsToBuffer_length_ge (ints : List Int)
    (h : ∀ v ∈ ints, 0 ≤ v) :
    ints.length ≤ (bigIntsToBuffer ints).length := by
  unfold bigIntsToBuffer
  rw [List.length_flatten]
  induction ints with
  | nil => simp
  | cons x t ih =>
      simp only [List.map_cons, List.map_map, List.sum_cons, List.length_cons]
      have hx : 0 ≤ x := h x (List.mem_cons_self _ _)
      have hxe : 0 < (intToBEBytes x).length := by
        rw [intToBEBytes_of_nonneg x hx]
        exact natToBEBytes_length_pos _
      have ht := ih fun v hv => h v (List.mem_cons_of_mem _ hv)
      simp only [List.map_map] at ht
      omega

theorem bigIntsToBuffer_length_le (ints : List Int) (B : Nat) (hB : 1 ≤ B)
    (h : ∀ v ∈ ints, 0 ≤ v ∧ v < (256 : Int) ^ B) :
    (bigIntsToBuffer ints).length ≤ ints.length * B := by
  unfold bigIntsToBuffer
  rw [List.length_flatten]
  induction ints with
  | nil => simp
  | cons x t ih =>
      simp only [List.map_cons, List.map_map, List.sum_cons, List.length_cons]
      obtain ⟨hx0, hxB⟩ := h x (List.mem_cons_self _ _)
      have hxe : (intToBEBytes x).length ≤ B := by
        rw [intToBEBytes_of_nonneg x hx0]
        apply natToBEBytes_length_le B x.toNat hB
        have : ((256 : Int) ^ B) = ((256 ^ B : Nat) : Int) := by push_cast; ring
        rw [this] at hxB
        omega
      have ht := ih fun v hv => h v (List.mem_cons_of_mem _ hv)
      simp only [List.map_map] at ht
      have : (t.map fun x => (intToBEBytes x).length).sum ≤ t.length * B := ht
      nlinarith

theorem bigIntsToBuffer_nonzero_byte (ints : List Int) (v : Int)
    (hv : v ∈ ints) (hv0 : 0 < v) :
    ∃ x ∈ bigIntsToBuffer ints, x ≠ 0 := by
  unfold bigIntsToBuffer
  have henc : intToBEBytes v ∈ ints.map intToBEBytes := List.mem_map_of_mem _ hv
  have hval : beBytesToNat (intToBEBytes v) = v.toNat := by
    rw [intToBEBytes_of_nonneg v (by omega), natToBEBytes_spec]
  have hnz : ∃ x ∈ intToBEBytes v, x ≠ 0 := by
    by_contra hall
    push_neg at hall
    have : beBytesToNat (intToBEBytes v) = 0 :=
      (beBytesToNat_eq_zero_iff _).mpr hall
    omega
  obtain ⟨x, hx, hxne⟩ := hnz
  exact ⟨x, List.mem_flatten_of_mem henc hx, hxne⟩

theorem buffer_nonzero_slice (b : Buf) (n : Nat) (hn : 0 < n)
    (hx : ∃ x ∈ b, x ≠ 0) :
    ∃ i < n, beBytesToNat (sliceOf b n i) ≠ 0 := by
  obtain ⟨x, hmem, hxne⟩ := hx
  obtain ⟨p, hp, hpx⟩ := List.mem_iff_getElem.mp hmem
  apply slice_cover_nonzero b n hn p hp
  rw [List.getD_eq_getElem?_getD, List.getElem?_eq_getElem hp]
  simpa [hpx] using hxne

theorem sliceOf_subset (b : Buf) (n i : Nat) :
    ∀ x ∈ sliceOf b n i, x ∈ b := by
  intro x hx
  unfold sliceOf at hx
  exact List.mem_of_mem_drop (List.mem_of_mem_take hx)

theorem sliceOf_length_le (b : Buf) (n i : Nat) :
    (sliceOf b n i).length ≤ bytesPerIntOf b.length n := by
  unfold sliceOf
  simp [List.length_take]

theorem bufferToBigInts_bound (b : Buf) (n : Nat) (B : Nat)
    (hbytes : ∀ x ∈ b, x < 256) (hbpi : bytesPerIntOf b.length n ≤ B) :
    ∀ v ∈ bufferToBigInts b n, v < (256 : Int) ^ B := by
  intro v hv
  unfold bufferToBigInts at hv
  rw [List.mem_map] at hv
  obtain ⟨i, _, rfl⟩ := hv
  simp only
  rw [sliceOf_value]
  have h1 : beBytesToNat (sliceOf b n i) < 256 ^ (sliceOf b n i).length :=
    beBytesToNat_lt _ fun x hx => hbytes x (sliceOf_subset b n i x hx)
  have h2 : (256 : Nat) ^ (sliceOf b n i).length ≤ 256 ^ B :=
    Nat.pow_le_pow_right (by norm_num) (le_trans (sliceOf_length_le b n i) hbpi)
  have h3 : beBytesToNat (sliceOf b n i) < 256 ^ B := lt_of_lt_of_le h1 h2
  exact_mod_cast h3

theorem foldl_tmod_nonneg (m : Int) (f : Nat → Int) (hf : ∀ i, 0 ≤ f i) :
    ∀ (l : List Nat) (acc : Int), 0 ≤ acc →
      0 ≤ l.foldl (fun c i => Int.tmod (c + f i) m) acc := by
  intro l
  induction l with
  | nil => intro acc h; simpa
  | cons x t ih =>
      intro acc h
      simp only [List.foldl_cons]
      exact ih _ (Int.tmod_nonneg _ (by have := hf x; omega))

/-!  ## Lattice engine: completeness -/

theorem sliceOf_one (b : Buf) : sliceOf b 1 0 = b := by
  unfold sliceOf bytesPerIntOf
  simp

theorem bufferToBigInts_one (b : Buf) :
    bufferToBigInts b 1 = [if b.isEmpty then 0 else (beBytesToNat b : Int)] := by
  unfold bufferToBigInts
  simp [List.range_succ, sliceOf_one]

theorem all_eq_head_zero_false (l : List Int) (hv : ∃ v ∈ l, v ≠ 0) :
    ((l.all fun v => v == l.headD 0) && (l.headD 0 == 0)) = false := by
  by_contra h
  rw [Bool.not_eq_false, Bool.and_eq_true] at h
  obtain ⟨h1, h2⟩ := h
  obtain ⟨v, hm, hne⟩ := hv
  have hvh := List.all_eq_true.mp h1 v hm
  rw [beq_iff_eq] at hvh h2
  exact hne (hvh.trans h2)

theorem generateLWESample_fst_length (d : Nat) (m err : Int) (tape : List Nat) :
    (generateLWESample d m err tape).1.length = d := by
  simp [generateLWESample]

theorem generateLWESample_fst_nonneg (d : Nat) (m err : Int) (tape : List Nat)
    (hm : 0 < m) : ∀ v ∈ (generateLWESample d m err tape).1, 0 ≤ v := by
  intro v hv
  simp only [generateLWESample, List.mem_map] at hv
  obtain ⟨i, _, rfl⟩ := hv
  unfold randBig
  have := Int.tmod_nonneg (m - 0) (show (0 : Int) ≤ (tape.getD i 0 : Int) by positivity)
  omega

theorem beBytesToNat_int_lt (l : Buf) (k : Nat) (hb : ∀ x ∈ l, x < 256)
    (hl : l.length ≤ k) : (beBytesToNat l : Int) < (256 : Int) ^ k := by
  have h1 : beBytesToNat l < 256 ^ l.length := beBytesToNat_lt l hb
  have h2 : (256 : Nat) ^ l.length ≤ 256 ^ k := Nat.pow_le_pow_right (by norm_num) hl
  exact_mod_cast lt_of_lt_of_le h1 h2

theorem createLWEResponseVals_mem (secret witness challenge : Buf)
    (a : List Int) (m : Int) (hm : 0 < m) :
    ∀ v ∈ createLWEResponseVals secret witness challenge a m,
      0 ≤ v ∧ ∃ s ∈ bufferToBigInts secret a.length,
        ∃ w ∈ bufferToBigInts witness a.length,
          v = Int.tmod (Int.tmod (s * (beBytesToNat challenge : Int)) m + w) m := by
  intro v hv
  unfold createLWEResponseVals at hv
  obtain ⟨ws, hws, w, hw, rfl⟩ := mem_zipWith_imp _ _ _ _ hv
  rw [List.mem_map] at hws
  obtain ⟨s, hs, rfl⟩ := hws
  have hs0 : 0 ≤ s := bufferToBigInts_nonneg _ _ s hs
  have hw0 : 0 ≤ w := bufferToBigInts_nonneg _ _ w hw
  have hws0 : 0 ≤ Int.tmod (s * (beBytesToNat challenge : Int)) m :=
    Int.tmod_nonneg _ (by positivity)
  exact ⟨Int.tmod_nonneg _ (by omega), s, hs, w, hw, rfl⟩

theorem createLWEResponseVals_length (secret witness challenge : Buf)
    (a : List Int) (m : Int) :
    (createLWEResponseVals secret witness challenge a m).length = a.length := by
  unfold createLWEResponseVals
  simp [List.length_zipWith, bufferToBigInts_length]

/-- Bound on each response entry: with byte-valued secret, a 32-byte
byte-valued witness and a 32-byte byte-valued challenge, every entry is
below `256 ^ (bytesPerIntOf secret.length 256 + 32)`. -/
theorem createLWEResponseVals_bound (secret witness challenge : Buf)
    (a : List Int) (m : Int) (hm : 0 < m) (halen : a.length = 256)
    (hsB : ∀ x ∈ secret, x < 256) (hwlen : witness.length = 32)
    (hwB : ∀ x ∈ witness, x < 256) (hclen : challenge.length = 32)
    (hcB : ∀ x ∈ challenge, x < 256) :
    ∀ v ∈ createLWEResponseVals secret witness challenge a m,
      v < (256 : Int) ^ (bytesPerIntOf secret.length 256 + 32) := by
  intro v hv
  obtain ⟨hv0, s, hs, w, hw, rfl⟩ :=
    createLWEResponseVals_mem secret witness challenge a m hm v hv
  set c : Int := (beBytesToNat challenge : Int) with hc
  set bpiS := bytesPerIntOf secret.length 256 with hbpiS
  have hs0 : 0 ≤ s := bufferToBigInts_nonneg _ _ s hs
  have hw0 : 0 ≤ w := bufferToBigInts_nonneg _ _ w hw
  have hc0 : 0 ≤ c := by rw [hc]; positivity
  have hsu : s < (256 : Int) ^ bpiS := by
    rw [halen] at hs
    exact bufferToBigInts_bound secret 256 bpiS hsB (le_refl _) s hs
  have hwu : w < (256 : Int) ^ 1 := by
    rw [halen] at hw
    have hb : bytesPerIntOf witness.length 256 ≤ 1 := by
      rw [hwlen]
      norm_num [bytesPerIntOf]
    exact bufferToBigInts_bound witness 256 1 hwB hb w hw
  have hcu : c < (256 : Int) ^ 32 := beBytesToNat_int_lt challenge 32 hcB (by omega)
  have h1 : Int.tmod (s * c) m ≤ s * c := tmod_le_self _ _ (by positivity) (by omega)
  have h2 : Int.tmod (Int.tmod (s * c) m + w) m ≤ Int.tmod (s * c) m + w :=
    tmod_le_self _ _ (by
      have := Int.tmod_nonneg m (show (0 : Int) ≤ s * c by positivity)
      omega) (by omega)
  have hQ : (256 : Int) ≤ 256 ^ 32 := by norm_num
  have hpow : (256 : Int) ^ (bpiS + 32) = 256 ^ bpiS * 256 ^ 32 := by
    rw [pow_add]
  have hP1 : (1 : Int) ≤ 256 ^ bpiS := one_le_pow₀ (by norm_num)
  have hsc : s * c ≤ (256 ^ bpiS - 1) * (256 ^ 32 - 1) := by
    have := mul_le_mul (show s ≤ 256 ^ bpiS - 1 by omega)
      (show c ≤ 256 ^ 32 - 1 by omega) hc0 (by omega)
    exact this
  have hwu2 : w ≤ 255 := by
    have : (256 : Int) ^ 1 = 256 := by norm_num
    omega
  rw [hpow]
  nlinarith

theorem getD_nonneg_of_all (l : List Int) (h : ∀ v ∈ l, 0 ≤ v) (i : Nat) :
    0 ≤ l.getD i 0 := by
  by_cases hi : i < l.length
  · rw [List.getD_eq_getElem?_getD, List.getElem?_eq_getElem hi]
    exact h _ (List.getElem_mem _)
  · rw [List.getD_eq_getElem?_getD, List.getElem?_eq_none (by omega)]
    simp

theorem bufferToBigInts_any_nonzero (b : Buf) (n : Nat) (hn : 0 < n)
    (hx : ∃ x ∈ b, x ≠ 0) :
    ((bufferToBigInts b n).any fun v => !(v == 0)) = true := by
  obtain ⟨i, hi, hnz⟩ := buffer_nonzero_slice b n hn hx
  rw [List.any_eq_true]
  refine ⟨(bufferToBigInts b n).getD i 0, ?_, ?_⟩
  · have hl : i < (bufferToBigInts b n).length := by
      rw [bufferToBigInts_length]; exact hi
    rw [List.getD_eq_getElem?_getD, List.getElem?_eq_getElem hl]
    exact List.getElem_mem _
  · rw [bufferToBigInts_getD_value b n i hi]
    simpa using hnz

theorem createLWECommitment_eq (a : List Int) (secret : Buf) (m err : Int) :
    createLWECommitment a secret m err =
      intToBEBytes (Int.tmod
        ((List.range a.length).foldl
          (fun c i => Int.tmod
            (c + a.getD i 0 * (bufferToBigInts secret a.length).getD i 0) m) 0
          + err) m) := by
  unfold createLWECommitment bigIntsToBuffer
  simp

theorem createLWECommitment_val_nonneg (a : List Int) (secret : Buf)
    (m err : Int) (ha : ∀ v ∈ a, 0 ≤ v) (herr : 0 ≤ err) (hm : 0 < m) :
    0 ≤ Int.tmod
      ((List.range a.length).foldl
        (fun c i => Int.tmod
          (c + a.getD i 0 * (bufferToBigInts secret a.length).getD i 0) m) 0
        + err) m := by
  have hfold : 0 ≤ (List.range a.length).foldl
      (fun c i => Int.tmod
        (c + a.getD i 0 * (bufferToBigInts secret a.length).getD i 0) m) 0 := by
    apply foldl_tmod_nonneg
    · intro i
      have h1 : 0 ≤ a.getD i 0 := getD_nonneg_of_all a ha i
      have h2 : 0 ≤ (bufferToBigInts secret a.length).getD i 0 :=
        getD_nonneg_of_all _ (bufferToBigInts_nonneg _ _) i
      positivity
    · exact le_refl 0
  exact Int.tmod_nonneg _ (by omega)

theorem latticeMkProof_fields (H : Buf → Buf) (secret : Buf) (d m : Int)
    (lweTape : List Nat) (lweErr commitErr : Int) (witness : Buf)
    (polyTape : List Nat) :
    (latticeMkProof H secret d m lweTape lweErr commitErr witness polyTape).ptype
        = "lattice" ∧
    (latticeMkProof H secret d m lweTape lweErr commitErr witness polyTape).dimension
        = d ∧
    (latticeMkProof H secret d m lweTape lweErr commitErr witness polyTape).modulus
        = m ∧
    (latticeMkProof H secret d m lweTape lweErr commitErr witness polyTape).commitment
        = createLWECommitment ((generateLWESample d.toNat m lweErr lweTape).1)
            secret m commitErr ∧
    (latticeMkProof H secret d m lweTape lweErr commitErr witness polyTape).challenge
        = generateLWEChallenge H
            (createLWECommitment ((generateLWESample d.toNat m lweErr lweTape).1)
              secret m commitErr) witness
            ((generateLWESample d.toNat m lweErr lweTape).1) ∧
    (latticeMkProof H secret d m lweTape lweErr commitErr witness polyTape).response
        = createLWEResponse secret witness
            (generateLWEChallenge H
              (createLWECommitment ((generateLWESample d.toNat m lweErr lweTape).1)
                secret m commitErr) witness
              ((generateLWESample d.toNat m lweErr lweTape).1))
            ((generateLWESample d.toNat m lweErr lweTape).1) m ∧
    (latticeMkProof H secret d m lweTape lweErr commitErr witness
      polyTape).polynomialCommitment
        = H (bigIntsToBuffer (latticePolyCoefficients d.toNat polyTape)) :=
  ⟨rfl, rfl, rfl, rfl, rfl, rfl, rfl⟩

/-- The LWE-equation check accepts a freshly built default-dimension
lattice proof, provided the modulus dominates the response entries, the
Gaussian error of the commitment is non-negative and the packed response
has a non-zero byte. -/
theorem latticeLWEEq_mkProof (H : Buf → Buf) (secret : Buf) (m : Int)
    (lweTape : List Nat) (lweErr commitErr : Int) (witness : Buf)
    (polyTape : List Nat)
    (Hlen : ∀ x, (H x).length = 32) (Hbytes : ∀ x, ∀ b ∈ H x, b < 256)
    (hsB : ∀ x ∈ secret, x < 256) (hwlen : witness.length = 32)
    (hwB : ∀ x ∈ witness, x < 256)
    (hm : (256 : Int) ^ (bytesPerIntOf secret.length 256 + 32) ≤ m)
    (herr : 0 ≤ commitErr)
    (hRespNZ : ∃ x ∈ (latticeMkProof H secret 256 m lweTape lweErr commitErr
      witness polyTape).response, x ≠ 0)
    (hSent : hasCorrupted (latticeMkProof H secret 256 m lweTape lweErr
      commitErr witness polyTape).response = false) :
    latticeVerifyLWEEquation (latticeMkProof H secret 256 m lweTape lweErr
      commitErr witness polyTape) = true := by
  obtain ⟨hf1, hf2, hf3, hf4, hf5, hf6, hf7⟩ :=
    latticeMkProof_fields H secret 256 m lweTape lweErr commitErr witness polyTape
  have hm0 : (0 : Int) < m :=
    lt_of_lt_of_le (pow_pos (by norm_num) _) hm
  set B := bytesPerIntOf secret.length 256 + 32 with hB
  set a := (generateLWESample ((256 : Int)).toNat m lweErr lweTape).1 with ha
  have halen : a.length = 256 := by
    simp [ha, generateLWESample_fst_length]
  have hanonneg : ∀ v ∈ a, 0 ≤ v :=
    generateLWESample_fst_nonneg _ m lweErr lweTape hm0
  set ch := generateLWEChallenge H
    (createLWECommitment a secret m commitErr) witness a with hch
  have hchlen : ch.length = 32 := by rw [hch]; unfold generateLWEChallenge; exact Hlen _
  have hchB : ∀ x ∈ ch, x < 256 := by rw [hch]; unfold generateLWEChallenge; exact Hbytes _
  set vals := createLWEResponseVals secret witness ch a m with hvals
  set R := createLWEResponse secret witness ch a m with hR
  have hReq : R = bigIntsToBuffer vals := rfl
  have hvals_len : vals.length = 256 := by
    rw [hvals, createLWEResponseVals_length, halen]
  have hvals_nonneg : ∀ v ∈ vals, 0 ≤ v := fun v hv =>
    (createLWEResponseVals_mem secret witness ch a m hm0 v hv).1
  have hvals_bound : ∀ v ∈ vals, v < (256 : Int) ^ B := by
    rw [hB]
    exact createLWEResponseVals_bound secret witness ch a m hm0 halen hsB
      hwlen hwB hchlen hchB
  have hRlen_ge : 256 ≤ R.length := by
    rw [hReq, ← hvals_len]
    exact bigIntsToBuffer_length_ge vals hvals_nonneg
  have hRlen_le : R.length ≤ 256 * B := by
    rw [hReq]
    calc (bigIntsToBuffer vals).length ≤ vals.length * B :=
        bigIntsToBuffer_length_le vals B (by omega)
          (fun v hv => ⟨hvals_nonneg v hv, hvals_bound v hv⟩)
      _ = 256 * B := by rw [hvals_len]
  have hRbytes : ∀ x ∈ R, x < 256 := by rw [hReq]; exact bigIntsToBuffer_bytes_lt vals
  have hbpiR : bytesPerIntOf R.length 256 ≤ B := by
    unfold bytesPerIntOf
    omega
  -- the commitment round-trips through its one-integer packing
  set cv := Int.tmod
    ((List.range a.length).foldl
      (fun c i => Int.tmod
        (c + a.getD i 0 * (bufferToBigInts secret a.length).getD i 0) m) 0
      + commitErr) m with hcv
  have hcv0 : 0 ≤ cv :=
    createLWECommitment_val_nonneg a secret m commitErr hanonneg herr hm0
  have hcvlt : cv < m := Int.tmod_lt_of_pos _ hm0
  have hcomm : createLWECommitment a secret m commitErr = natToBEBytes cv.toNat := by
    rw [createLWECommitment_eq, ← hcv, intToBEBytes_of_nonneg _ hcv0]
  have hcommval : (bufferToBigInts (createLWECommitment a secret m commitErr) 1).getD 0 0
      = cv := by
    rw [hcomm, bufferToBigInts_one]
    have hne := natToBEBytes_ne_nil cv.toNat
    simp only [List.isEmpty_iff, hne, if_false, List.getD_cons_zero]
    rw [natToBEBytes_spec]
    omega
  -- the unpacked response entries
  have hresp_len : (bufferToBigInts R 256).length = 256 := bufferToBigInts_length R 256
  have hresp_nonneg : ∀ v ∈ bufferToBigInts R 256, 0 ≤ v := bufferToBigInts_nonneg R 256
  have hresp_lt : ∀ v ∈ bufferToBigInts R 256, v < m := fun v hv =>
    lt_of_lt_of_le (bufferToBigInts_bound R 256 B hRbytes hbpiR v hv)
      (by rw [hB] at *; exact hm)
  have hRNZ : ∃ x ∈ R, x ≠ 0 := by
    have := hRespNZ
    rwa [hf6] at this
  have hany : ((bufferToBigInts R 256).any fun v => !(v == 0)) = true :=
    bufferToBigInts_any_nonzero R 256 (by omega) hRNZ
  have hexv : ∃ v ∈ bufferToBigInts R 256, v ≠ 0 := by
    obtain ⟨v, hv, hvne⟩ := List.any_eq_true.mp hany
    exact ⟨v, hv, by simpa using hvne⟩
  have huniq := all_eq_head_zero_false (bufferToBigInts R 256) hexv
  have hSentR : hasCorrupted R = false := by
    have := hSent
    rwa [hf6] at this
  -- assemble the checks
  unfold latticeVerifyLWEEquation
  rw [hf6, hf4, hf2, hf3]
  simp only [hSentR, Bool.false_eq_true, if_false, hcommval]
  have hlenck : (((bufferToBigInts R ((256 : Int)).toNat).length : Int) == (256 : Int))
      = true := by
    have h256 : ((256 : Int)).toNat = 256 := rfl
    rw [h256, hresp_len]
    simp
  have hallck : ((bufferToBigInts R ((256 : Int)).toNat).all fun v =>
      decide (0 ≤ v) && decide (v < m)) = true := by
    have h256 : ((256 : Int)).toNat = 256 := rfl
    rw [h256, List.all_eq_true]
    intro v hv
    simp [hresp_nonneg v hv, hresp_lt v hv]
  have h256 : ((256 : Int)).toNat = 256 := rfl
  rw [h256] at hlenck hallck ⊢
  simp only [hlenck, hallck, hcv0, hcvlt, hany, huniq]
  simp [hcv0, hcvlt]

set_option maxHeartbeats 1000000 in
/-- Full acceptance of a freshly built default-dimension lattice proof
under the non-degeneracy side conditions. -/
theorem latticeVerify_mkProof (H : Buf → Buf) (secret : Buf) (m : Int)
    (lweTape : List Nat) (lweErr commitErr : Int) (witness : Buf)
    (polyTape : List Nat)
    (Hlen : ∀ x, (H x).length = 32) (Hbytes : ∀ x, ∀ b ∈ H x, b < 256)
    (hsB : ∀ x ∈ secret, x < 256) (hwlen : witness.length = 32)
    (hwB : ∀ x ∈ witness, x < 256)
    (hm : (256 : Int) ^ (bytesPerIntOf secret.length 256 + 32) ≤ m)
    (herr : 0 ≤ commitErr)
    (hRespNZ : ∃ x ∈ (latticeMkProof H secret 256 m lweTape lweErr commitErr
      witness polyTape).response, x ≠ 0)
    (hChallNZ : ∃ x ∈ (latticeMkProof H secret 256 m lweTape lweErr commitErr
      witness polyTape).challenge, x ≠ 0)
    (hSent1 : hasCorrupted (latticeMkProof H secret 256 m lweTape lweErr
      commitErr witness polyTape).response = false)
    (hSent2 : hasCorrupted (latticeMkProof H secret 256 m lweTape lweErr
      commitErr witness polyTape).challenge = false)
    (hSent3 : hasCorrupted (latticeMkProof H secret 256 m lweTape lweErr
      commitErr witness polyTape).commitment = false)
    (hZK : H (latticeMkProof H secret 256 m lweTape lweErr commitErr witness
      polyTape).response ≠ H (latticeMkProof H secret 256 m lweTape lweErr
      commitErr witness polyTape).challenge) :
    latticeVerifyProof H (latticeMkProof H secret 256 m lweTape lweErr
      commitErr witness polyTape) = true := by
  have hlwe := latticeLWEEq_mkProof H secret m lweTape lweErr commitErr witness
    polyTape Hlen Hbytes hsB hwlen hwB hm herr hRespNZ hSent1
  obtain ⟨hf1, hf2, hf3, hf4, hf5, hf6, hf7⟩ :=
    latticeMkProof_fields H secret 256 m lweTape lweErr commitErr witness polyTape
  have hm0 : (0 : Int) < m := lt_of_lt_of_le (pow_pos (by norm_num) _) hm
  set a := (generateLWESample ((256 : Int)).toNat m lweErr lweTape).1 with ha
  have halen : a.length = 256 := by simp [ha, generateLWESample_fst_length]
  have hanonneg : ∀ v ∈ a, 0 ≤ v :=
    generateLWESample_fst_nonneg _ m lweErr lweTape hm0
  set ch := generateLWEChallenge H
    (createLWECommitment a secret m commitErr) witness a with hch
  have hchlen : ch.length = 32 := by
    rw [hch]; unfold generateLWEChallenge; exact Hlen _
  set vals := createLWEResponseVals secret witness ch a m with hvals
  set R := createLWEResponse secret witness ch a m with hR
  have hReq : R = bigIntsToBuffer vals := rfl
  have hvals_len : vals.length = 256 := by
    rw [hvals, createLWEResponseVals_length, halen]
  have hvals_nonneg : ∀ v ∈ vals, 0 ≤ v := fun v hv =>
    (createLWEResponseVals_mem secret witness ch a m hm0 v hv).1
  have hRlen_ge : 256 ≤ R.length := by
    rw [hReq, ← hvals_len]
    exact bigIntsToBuffer_length_ge vals hvals_nonneg
  have hRNZ : ∃ x ∈ R, x ≠ 0 := by rw [hf6] at hRespNZ; exact hRespNZ
  have hChNZ : ∃ x ∈ ch, x ≠ 0 := by rw [hf5] at hChallNZ; exact hChallNZ
  have hS1 : hasCorrupted R = false := by rw [hf6] at hSent1; exact hSent1
  have hS2 : hasCorrupted ch = false := by rw [hf5] at hSent2; exact hSent2
  have hS3 : hasCorrupted (createLWECommitment a secret m commitErr) = false := by
    rw [hf4] at hSent3; exact hSent3
  -- fractional unpack count collapses to 10
  have hfrac : bufferToBigIntsFrac R (min ((R.length : ℚ) / 8) 10) =
      bufferToBigInts R 10 := by
    have h80 : (10 : ℚ) ≤ (R.length : ℚ) / 8 := by
      rw [le_div_iff₀ (by norm_num)]
      have hcast : (80 : ℚ) ≤ (R.length : ℚ) := by
        exact_mod_cast (show (80 : ℕ) ≤ R.length by omega)
      linarith
    rw [min_eq_right h80, show (10 : ℚ) = ((10 : ℕ) : ℚ) by norm_num]
    exact bufferToBigIntsFrac_natCast R 10 (by norm_num)
  have hany10 : ((bufferToBigInts R 10).any fun v => !(v == 0)) = true :=
    bufferToBigInts_any_nonzero R 10 (by norm_num) hRNZ
  have hany4 : ((bufferToBigInts ch 4).any fun v => !(v == 0)) = true :=
    bufferToBigInts_any_nonzero ch 4 (by norm_num) hChNZ
  -- remaining structural checks
  have hcv0 : 0 ≤ Int.tmod
      ((List.range a.length).foldl
        (fun c i => Int.tmod
          (c + a.getD i 0 * (bufferToBigInts secret a.length).getD i 0) m) 0
        + commitErr) m :=
    createLWECommitment_val_nonneg a secret m commitErr hanonneg herr hm0
  have hcomm_ne : createLWECommitment a secret m commitErr ≠ [] := by
    rw [createLWECommitment_eq, intToBEBytes_of_nonneg _ hcv0]
    exact natToBEBytes_ne_nil _
  have hstruct : latticeValidateProofStructure (latticeMkProof H secret 256 m
      lweTape lweErr commitErr witness polyTape) = true := by
    unfold latticeValidateProofStructure
    rw [hf1, hf2, hf3]
    simp [hm0]
  have hHne : ∀ x, H x ≠ [] := by
    intro x hx
    have hl := Hlen x
    rw [hx] at hl
    simp at hl
  have hpc : latticeVerifyPolynomialCommitment (latticeMkProof H secret 256 m
      lweTape lweErr commitErr witness polyTape) = true := by
    unfold latticeVerifyPolynomialCommitment
    rw [hf7]
    simp [List.isEmpty_iff, hHne, Hlen]
  have hzk : latticeVerifyZeroKnowledge H (latticeMkProof H secret 256 m
      lweTape lweErr commitErr witness polyTape) = true := by
    unfold latticeVerifyZeroKnowledge
    simp only [Bool.not_eq_true', beq_eq_false_iff_ne]
    exact hZK
  unfold latticeVerifyProof
  rw [hstruct, hf6, hf5, hf4]
  simp only [hfrac]
  have hRne : R ≠ [] := by
    intro hx
    rw [hx] at hRlen_ge
    simp at hRlen_ge
  simp [List.isEmpty_iff, hRne, hchlen, hcomm_ne, hany10, hany4, hS1, hS2, hS3,
    hlwe, hpc, hzk]

theorem lattice_create_default (H : Buf → Buf) (secret : Buf) (m : Int)
    (lweTape : List Nat) (lweErr commitErr : Int) (witness : Buf)
    (polyTape : List Nat) (hm0 : 0 < m) :
    latticeCreateProof H secret none none m lweTape lweErr commitErr witness
      polyTape =
      .ok (latticeMkProof H secret 256 m lweTape lweErr commitErr witness
        polyTape) := by
  unfold latticeCreateProof validateLatticeParameters
  simp [hm0, show ¬((256 : Int) < 128) by norm_num, not_le.mpr hm0]

/-!  ## Multivariate engine: completeness -/

theorem foldl_range_invariant (m : Int) (g : Int → Nat → Int)
    (hg : ∀ acc i, 0 ≤ acc → 0 ≤ g acc i ∧ g acc i < m) :
    ∀ (l : List Nat) (acc : Int), 0 ≤ acc → acc < m →
      0 ≤ l.foldl g acc ∧ l.foldl g acc < m := by
  intro l
  induction l with
  | nil => intro acc h1 h2; exact ⟨h1, h2⟩
  | cons x t ih =>
      intro acc h1 h2
      simp only [List.foldl_cons]
      obtain ⟨hg1, hg2⟩ := hg acc x h1
      exact ih _ hg1 hg2

theorem getD_all_prop {α : Type} (P : α → Prop) (l : List α) (d : α)
    (hl : ∀ x ∈ l, P x) (hd : P d) (i : Nat) : P (l.getD i d) := by
  by_cases hi : i < l.length
  · rw [List.getD_eq_getElem?_getD, List.getElem?_eq_getElem hi]
    exact hl _ (List.getElem_mem _)
  · rw [List.getD_eq_getElem?_getD, List.getElem?_eq_none (by omega)]
    exact hd

theorem mvRawSystem_nonneg (tape : List Nat) (nVars nEqs degree : Nat) :
    ∀ eqn ∈ mvRawSystem tape nVars nEqs degree, ∀ poly ∈ eqn, ∀ c ∈ poly,
      0 ≤ c := by
  intro eqn heq poly hpoly c hc
  unfold mvRawSystem at heq
  rw [List.mem_map] at heq
  obtain ⟨i, _, rfl⟩ := heq
  rw [List.mem_map] at hpoly
  obtain ⟨j, _, rfl⟩ := hpoly
  rw [List.mem_map] at hc
  obtain ⟨d, _, rfl⟩ := hc
  unfold randBig
  have := Int.tmod_nonneg ((2 : Int) ^ 32 - 1)
    (show (0 : Int) ≤ (tape.getD ((i * nVars + j) * max degree 1 + d) 0 : Int)
      by positivity)
  omega

theorem mvRawSystem_length (tape : List Nat) (nVars nEqs degree : Nat) :
    (mvRawSystem tape nVars nEqs degree).length = nEqs := by
  simp [mvRawSystem]

/-- Every packed solution integer of `solveMultivariateSystem` lies in
`[0, 2 ^ 64)` whenever deserialization returns a system with
non-negative coefficients. -/
theorem mvSolveSystem_vals_range (deser : Buf → List (List (List Int)))
    (secret : Buf) (sysBuf : Buf)
    (hsys : ∀ eqn ∈ deser sysBuf, ∀ poly ∈ eqn, ∀ c ∈ poly, 0 ≤ c) :
    ∀ v ∈ (deser sysBuf).map (fun equation =>
      (List.range (min equation.length
        (bufferToBigInts secret
          (min ((deser sysBuf).headD []).length 16)).length)).foldl
        (fun result i =>
          let polynomial := equation.getD i []
          let value := (bufferToBigInts secret
            (min ((deser sysBuf).headD []).length 16)).getD i 0
          let polyResult := (List.range polynomial.length).foldl
            (fun pr j => Int.tmod (pr + polynomial.getD j 0 * value ^ j)
              (2 ^ 64)) 0
          Int.tmod (result + polyResult) (2 ^ 64)) 0),
      0 ≤ v ∧ v < 2 ^ 64 := by
  intro v hv
  rw [List.mem_map] at hv
  obtain ⟨eqn, heq, rfl⟩ := hv
  apply foldl_range_invariant
  · intro acc i hacc
    have hpoly : ∀ x ∈ eqn.getD i [], (0 : Int) ≤ x := by
      have := getD_all_prop (fun poly => ∀ c ∈ poly, (0 : Int) ≤ c) eqn []
        (fun poly hp => hsys eqn heq poly hp) (by simp) i
      exact this
    have hval : (0 : Int) ≤ (bufferToBigInts secret
        (min ((deser sysBuf).headD []).length 16)).getD i 0 :=
      getD_nonneg_of_all _ (bufferToBigInts_nonneg _ _) i
    have hinner : 0 ≤ (List.range (eqn.getD i []).length).foldl
        (fun pr j => Int.tmod (pr + (eqn.getD i []).getD j 0 *
          ((bufferToBigInts secret
            (min ((deser sysBuf).headD []).length 16)).getD i 0) ^ j)
          (2 ^ 64)) 0 ∧
        (List.range (eqn.getD i []).length).foldl
        (fun pr j => Int.tmod (pr + (eqn.getD i []).getD j 0 *
          ((bufferToBigInts secret
            (min ((deser sysBuf).headD []).length 16)).getD i 0) ^ j)
          (2 ^ 64)) 0 < 2 ^ 64 := by
      apply foldl_range_invariant
      · intro pr j hpr
        have hcj : (0 : Int) ≤ (eqn.getD i []).getD j 0 :=
          getD_all_prop (fun c => (0 : Int) ≤ c) _ 0 hpoly (le_refl 0) j
        constructor
        · exact Int.tmod_nonneg _ (by positivity)
        · exact Int.tmod_lt_of_pos _ (by positivity)
      · exact le_refl 0
      · positivity
    constructor
    · exact Int.tmod_nonneg _ (by omega)
    · exact Int.tmod_lt_of_pos _ (by positivity)
  · exact le_refl 0
  · positivity

theorem mvMkProof_fields (H : Buf → Buf)
    (serial : List (List (List Int)) → Buf)
    (deser : Buf → List (List (List Int))) (secret witness : Buf)
    (sysTape : List Nat) (nVars nEqs : Int) :
    (mvMkProof H serial deser secret witness sysTape nVars nEqs).ptype
        = "multivariate" ∧
    (mvMkProof H serial deser secret witness sysTape nVars nEqs).nVars = nVars ∧
    (mvMkProof H serial deser secret witness sysTape nVars nEqs).nEqs = nEqs ∧
    (mvMkProof H serial deser secret witness sysTape nVars nEqs).polynomialSystem
        = mvGenerateSystem serial sysTape nVars.toNat nEqs.toNat 2 ∧
    (mvMkProof H serial deser secret witness sysTape nVars nEqs).commitment
        = mvCreateCommitment H secret
            (mvGenerateSystem serial sysTape nVars.toNat nEqs.toNat 2) ∧
    (mvMkProof H serial deser secret witness sysTape nVars nEqs).challenge
        = mvGenerateChallenge H
            (mvCreateCommitment H secret
              (mvGenerateSystem serial sysTape nVars.toNat nEqs.toNat 2))
            witness (mvGenerateSystem serial sysTape nVars.toNat nEqs.toNat 2) ∧
    (mvMkProof H serial deser secret witness sysTape nVars nEqs).response
        = mvCreateResponse secret witness
            (mvGenerateChallenge H
              (mvCreateCommitment H secret
                (mvGenerateSystem serial sysTape nVars.toNat nEqs.toNat 2))
              witness (mvGenerateSystem serial sysTape nVars.toNat nEqs.toNat 2)) ∧
    (mvMkProof H serial deser secret witness sysTape nVars nEqs).solution
        = mvSolveSystem deser secret
            (mvGenerateSystem serial sysTape nVars.toNat nEqs.toNat 2) :=
  ⟨rfl, rfl, rfl, rfl, rfl, rfl, rfl, rfl⟩

/-- Acceptance of a freshly built default-parameter multivariate proof
under the non-degeneracy side conditions, assuming the JSON round-trip
recovers the generated system. -/
theorem mvVerify_mkProof (H : Buf → Buf)
    (serial : List (List (List Int)) → Buf)
    (deser : Buf → List (List (List Int))) (secret witness : Buf)
    (sysTape : List Nat)
    (Hlen : ∀ x, (H x).length = 32)
    (hRT : deser (mvGenerateSystem serial sysTape 8 12 2) =
      mvRawSystem sysTape 8 12 2)
    (hSentR : hasCorrupted (mvMkProof H serial deser secret witness sysTape
      8 12).response = false)
    (hSentC : hasCorrupted (mvMkProof H serial deser secret witness sysTape
      8 12).challenge = false)
    (hSentM : hasCorrupted (mvMkProof H serial deser secret witness sysTape
      8 12).commitment = false)
    (hSentS : hasCorrupted (mvMkProof H serial deser secret witness sysTape
      8 12).solution = false)
    (hZK : H (mvMkProof H serial deser secret witness sysTape 8 12).response ≠
      H (mvMkProof H serial deser secret witness sysTape 8 12).challenge) :
    mvVerifyProof H (mvMkProof H serial deser secret witness sysTape 8 12)
      = true := by
  obtain ⟨hf1, hf2, hf3, hf4, hf5, hf6, hf7, hf8⟩ :=
    mvMkProof_fields H serial deser secret witness sysTape 8 12
  have h8 : ((8 : Int)).toNat = 8 := rfl
  have h12 : ((12 : Int)).toNat = 12 := rfl
  rw [h8, h12] at hf4 hf5 hf6 hf7 hf8
  set sysBuf := mvGenerateSystem serial sysTape 8 12 2 with hsys
  -- solution integers are in range
  set vals := (deser sysBuf).map (fun equation =>
    (List.range (min equation.length
      (bufferToBigInts secret
        (min ((deser sysBuf).headD []).length 16)).length)).foldl
      (fun result i =>
        let polynomial := equation.getD i []
        let value := (bufferToBigInts secret
          (min ((deser sysBuf).headD []).length 16)).getD i 0
        let polyResult := (List.range polynomial.length).foldl
          (fun pr j => Int.tmod (pr + polynomial.getD j 0 * value ^ j)
            (2 ^ 64)) 0
        Int.tmod (result + polyResult) (2 ^ 64)) 0) with hvals
  have hsolve : mvSolveSystem deser secret sysBuf = bigIntsToBuffer vals := rfl
  have hsysnn : ∀ eqn ∈ deser sysBuf, ∀ poly ∈ eqn, ∀ c ∈ poly, (0 : Int) ≤ c := by
    rw [hRT]
    exact mvRawSystem_nonneg sysTape 8 12 2
  have hrange : ∀ v ∈ vals, 0 ≤ v ∧ v < 2 ^ 64 := by
    rw [hvals]
    exact mvSolveSystem_vals_range deser secret sysBuf hsysnn
  have hvals_len : vals.length = 12 := by
    rw [hvals, List.length_map, hRT, mvRawSystem_length]
  have hvals_pow : ∀ v ∈ vals, 0 ≤ v ∧ v < (256 : Int) ^ 8 := by
    intro v hv
    have := hrange v hv
    constructor
    · exact this.1
    · calc v < 2 ^ 64 := this.2
        _ = (256 : Int) ^ 8 := by norm_num
  set S := bigIntsToBuffer vals with hS
  have hSlen_ge : 12 ≤ S.length := by
    rw [hS, ← hvals_len]
    exact bigIntsToBuffer_length_ge vals fun v hv => (hrange v hv).1
  have hSlen_le : S.length ≤ 96 := by
    rw [hS]
    calc (bigIntsToBuffer vals).length ≤ vals.length * 8 :=
        bigIntsToBuffer_length_le vals 8 (by norm_num) hvals_pow
      _ = 96 := by rw [hvals_len]
  have hSbytes : ∀ x ∈ S, x < 256 := by
    rw [hS]; exact bigIntsToBuffer_bytes_lt vals
  have hSbpi : bytesPerIntOf S.length 12 ≤ 8 := by
    unfold bytesPerIntOf
    omega
  have hSne : S ≠ [] := by
    intro hx
    rw [hx] at hSlen_ge
    simp at hSlen_ge
  have hsolcheck : mvVerifyPolynomialSolution (mvMkProof H serial deser secret
      witness sysTape 8 12) = true := by
    unfold mvVerifyPolynomialSolution
    rw [hf8, hsolve, hf3, h12]
    have hsent : hasCorrupted S = false := by
      have hcs := hSentS
      rw [hf8, hsolve] at hcs
      exact hcs
    simp only [hsent, Bool.false_eq_true, if_false, List.isEmpty_iff, hSne,
      if_false]
    rw [List.all_eq_true]
    intro v hv
    have h1 : 0 ≤ v := bufferToBigInts_nonneg S 12 v hv
    have h2 : v < (256 : Int) ^ 8 := bufferToBigInts_bound S 12 8 hSbytes hSbpi v hv
    have h3 : v ≤ 18446744073709551616 := by
      have hb : (256 : Int) ^ 8 = 18446744073709551616 := by norm_num
      omega
    simp [h1, h3]
  have hstruct : mvValidateProofStructure (mvMkProof H serial deser secret
      witness sysTape 8 12) = true := by
    unfold mvValidateProofStructure
    rw [hf1, hf2, hf3]
    simp
  have hcomlen : (mvMkProof H serial deser secret witness sysTape
      8 12).commitment.length = 32 := by
    rw [hf5]
    unfold mvCreateCommitment
    exact Hlen _
  unfold mvVerifyProof
  rw [hstruct]
  simp only [hSentR, hSentC, hSentM, Bool.false_eq_true, if_false, Bool.or_self,
    hcomlen, hsolcheck]
  simp [hZK]

theorem mv_create_default (H : Buf → Buf) (serial : List (List (List Int)) → Buf)
    (deser : Buf → List (List (List Int))) (secret witness : Buf)
    (sysTape : List Nat) :
    mvCreateProof H serial deser secret witness sysTape none none =
      .ok (mvMkProof H serial deser secret witness sysTape 8 12) := by
  unfold mvCreateProof validateMultivariateParameters
  norm_num

/-!  ## Hybrid engine: completeness -/

theorem hybrid_create_default (H : Buf → Buf) (Hm : Buf → Buf → Buf)
    (serial : List (List (List Int)) → Buf)
    (deser : Buf → List (List (List Int))) (secret : Buf) (r : HybridRand)
    (weightsBytes : String → Buf) (Hlen : ∀ x, (H x).length = 32)
    (hm0 : 0 < r.latPrime) :
    hybridCreateProof H Hm serial deser secret r weightsBytes none =
      .ok (hybridMkProof H Hm secret
        [ComponentProof.lat (latticeMkProof H secret 256 r.latPrime r.latTape
            r.latLweErr r.latCommitErr r.latWitness r.latPolyTape),
          ComponentProof.hsh (hashMkProof H Hm secret r.hashWitness
            r.hashSeed 1000),
          ComponentProof.mv (mvMkProof H serial deser secret r.mvWitness
            r.mvTape 8 12)]
        r.hybWitness weightsBytes) := by
  have hval : validateHybridParameters
      [AlgorithmType.lattice, AlgorithmType.hash,
        AlgorithmType.multivariate] = true := by
    unfold validateHybridParameters
    decide
  have hlat := lattice_create_default H secret r.latPrime r.latTape
    r.latLweErr r.latCommitErr r.latWitness r.latPolyTape hm0
  have hhash := (hash_complete H Hm secret r.hashWitness r.hashSeed Hlen).1
  have hmv := mv_create_default H serial deser secret r.mvWitness r.mvTape
  unfold hybridCreateProof
  simp only [Option.getD_none, hval]
  unfold hybridComponentProofs
  rw [hlat]
  unfold hybridComponentProofs
  rw [hhash]
  unfold hybridComponentProofs
  rw [hmv]
  unfold hybridComponentProofs
  rfl

theorem hybridVerify_mkProof (H : Buf → Buf) (Hm : Buf → Buf → Buf)
    (secret : Buf) (c1 c2 c3 : ComponentProof) (witness : Buf)
    (weightsBytes : String → Buf)
    (Hlen : ∀ x, (H x).length = 32)
    (hNoSent : ∀ x, hasCorrupted (H x) = false)
    (hv1 : verifyComponentProof H c1 = true)
    (hv2 : verifyComponentProof H c2 = true)
    (hv3 : verifyComponentProof H c3 = true)
    (hZK : H (hybridMkProof H Hm secret [c1, c2, c3] witness
        weightsBytes).response ≠
      H (hybridMkProof H Hm secret [c1, c2, c3] witness
        weightsBytes).challenge) :
    hybridVerifyProof H (hybridMkProof H Hm secret [c1, c2, c3] witness
      weightsBytes) = true := by
  set p := hybridMkProof H Hm secret [c1, c2, c3] witness weightsBytes with hp
  have hstruct : hybridValidateProofStructure p = true := by
    rw [hp]
    rfl
  have hresp : p.response = H (witness ++ Hm p.challenge (H secret) ++
      combineHashes1 H ([c1, c2, c3].map componentResponse)) := rfl
  have hcomb : p.combined = H (H (H (componentCommitment c1 ++
      componentResponse c1 ++ weightsBytes (componentPtype c1)) ++
      H (componentCommitment c2 ++ componentResponse c2 ++
        weightsBytes (componentPtype c2))) ++
      H (componentCommitment c3 ++ componentResponse c3 ++
        weightsBytes (componentPtype c3))) := rfl
  have hcommit : p.commitment = H (combineHashes1 H
      ([c1, c2, c3].map fun c => H (componentCommitment c)) ++ H secret) := rfl
  have hchall : p.challenge = H (p.commitment ++ witness ++
      combineHashes1 H ([c1, c2, c3].map componentCommitment)) := rfl
  have hS1 : hasCorrupted p.response = false := by rw [hresp]; exact hNoSent _
  have hS2 : hasCorrupted p.challenge = false := by rw [hchall]; exact hNoSent _
  have hS3 : hasCorrupted p.commitment = false := by
    rw [hcommit]; exact hNoSent _
  have hS4 : hasCorrupted p.combined = false := by rw [hcomb]; exact hNoSent _
  have hclen : p.commitment.length = 32 := by rw [hcommit]; exact Hlen _
  have hcombne : p.combined ≠ [] := by
    rw [hcomb]
    intro hx
    have := Hlen (H (H (componentCommitment c1 ++ componentResponse c1 ++
      weightsBytes (componentPtype c1)) ++ H (componentCommitment c2 ++
      componentResponse c2 ++ weightsBytes (componentPtype c2))) ++
      H (componentCommitment c3 ++ componentResponse c3 ++
        weightsBytes (componentPtype c3)))
    rw [hx] at this
    simp at this
  have hall : (p.proofs.all fun c => verifyComponentProof H c) = true := by
    have hpr : p.proofs = [c1, c2, c3] := rfl
    rw [hpr]
    simp [hv1, hv2, hv3]
  unfold hybridVerifyProof
  rw [hstruct]
  simp [hS1, hS2, hS3, hS4, hall, hclen, List.isEmpty_iff, hcombne, hZK]

/-!  ## Properties of the concrete digests -/

theorem cHash_length (x : Buf) : (cHash x).length = 32 := by
  simp [cHash]

theorem cHash_bytes (x : Buf) : ∀ b ∈ cHash x, b < 256 := by
  intro b hb
  unfold cHash at hb
  rcases List.mem_append.mp hb with h | h
  · have := List.eq_of_mem_replicate h
    omega
  · simp only [List.mem_singleton] at h
    have hlt : x.foldl (fun a b => (a * 3 + b + 1) % 255) 5 % 255 < 255 :=
      Nat.mod_lt _ (by norm_num)
    omega

theorem findPat_corrupted_replicate (n b : Nat) :
    findPat corruptedBytes (List.replicate n 0 ++ [b]) = false := by
  induction n with
  | zero => simp [findPat, matchAt, corruptedBytes]
  | succ k ih =>
      rw [List.replicate_succ, List.cons_append]
      show (matchAt corruptedBytes (0 :: (List.replicate k 0 ++ [b])) ||
        findPat corruptedBytes (List.replicate k 0 ++ [b])) = false
      rw [ih]
      simp [matchAt, corruptedBytes]

theorem hasCorrupted_cHash (x : Buf) : hasCorrupted (cHash x) = false := by
  unfold hasCorrupted cHash
  exact findPat_corrupted_replicate 31 _

theorem cHash_exists_nonzero (x : Buf) : ∃ b ∈ cHash x, b ≠ 0 := by
  refine ⟨x.foldl (fun a b => (a * 3 + b + 1) % 255) 5 % 255 + 1, ?_, by omega⟩
  unfold cHash
  simp

theorem cHmac_length (data key : Buf) : (cHmac data key).length = 32 :=
  cHash_length _

/-!  ## Claim theorems -/

/-- C1.  Corrected form of the spec sentence "for all algorithms,
verifyProof(createProof(secret)) == true".  The round trip does accept
for each of the four engines, but not unconditionally: the lattice
verifier rejects a proof whose packed LWE response is all zero, which a
degenerate randomness draw produces (see the counterexample), and the
sentinel and zero-knowledge checks can likewise fire on adversarial
digest collisions.  Under explicit shape hypotheses on the external
digests and non-degeneracy hypotheses on the sampled randomness, created
proofs of all four engines verify. -/
theorem claim_C1 (H : Buf → Buf) (Hm : Buf → Buf → Buf)
    (serial : List (List (List Int)) → Buf)
    (deser : Buf → List (List (List Int))) (secret : Buf) (r : HybridRand)
    (weightsBytes : String → Buf)
    (Hlen : ∀ x, (H x).length = 32)
    (Hbytes : ∀ x, ∀ b ∈ H x, b < 256)
    (hNoSent : ∀ x, hasCorrupted (H x) = false)
    (hHNZ : ∀ x, ∃ b ∈ H x, b ≠ 0)
    (hsB : ∀ x ∈ secret, x < 256)
    (hwlen : r.latWitness.length = 32)
    (hwB : ∀ x ∈ r.latWitness, x < 256)
    (hm : (256 : Int) ^ (bytesPerIntOf secret.length 256 + 32) ≤ r.latPrime)
    (herr : 0 ≤ r.latCommitErr)
    (hRespNZ : ∃ x ∈ (latticeMkProof H secret 256 r.latPrime r.latTape
      r.latLweErr r.latCommitErr r.latWitness r.latPolyTape).response, x ≠ 0)
    (hSentLR : hasCorrupted (latticeMkProof H secret 256 r.latPrime r.latTape
      r.latLweErr r.latCommitErr r.latWitness r.latPolyTape).response = false)
    (hSentLM : hasCorrupted (latticeMkProof H secret 256 r.latPrime r.latTape
      r.latLweErr r.latCommitErr r.latWitness r.latPolyTape).commitment
      = false)
    (hZKlat : H (latticeMkProof H secret 256 r.latPrime r.latTape r.latLweErr
      r.latCommitErr r.latWitness r.latPolyTape).response ≠
      H (latticeMkProof H secret 256 r.latPrime r.latTape r.latLweErr
        r.latCommitErr r.latWitness r.latPolyTape).challenge)
    (hRT : deser (mvGenerateSystem serial r.mvTape 8 12 2) =
      mvRawSystem r.mvTape 8 12 2)
    (hSentMR : hasCorrupted (mvMkProof H serial deser secret r.mvWitness
      r.mvTape 8 12).response = false)
    (hSentMS : hasCorrupted (mvMkProof H serial deser secret r.mvWitness
      r.mvTape 8 12).solution = false)
    (hZKmv : H (mvMkProof H serial deser secret r.mvWitness r.mvTape
      8 12).response ≠ H (mvMkProof H serial deser secret r.mvWitness r.mvTape
      8 12).challenge)
    (hZKhyb : H (hybridMkProof H Hm secret
      [ComponentProof.lat (latticeMkProof H secret 256 r.latPrime r.latTape
          r.latLweErr r.latCommitErr r.latWitness r.latPolyTape),
        ComponentProof.hsh (hashMkProof H Hm secret r.hashWitness
          r.hashSeed 1000),
        ComponentProof.mv (mvMkProof H serial deser secret r.mvWitness
          r.mvTape 8 12)] r.hybWitness weightsBytes).response ≠
      H (hybridMkProof H Hm secret
      [ComponentProof.lat (latticeMkProof H secret 256 r.latPrime r.latTape
          r.latLweErr r.latCommitErr r.latWitness r.latPolyTape),
        ComponentProof.hsh (hashMkProof H Hm secret r.hashWitness
          r.hashSeed 1000),
        ComponentProof.mv (mvMkProof H serial deser secret r.mvWitness
          r.mvTape 8 12)] r.hybWitness weightsBytes).challenge) :
    (hashCreateProof H Hm secret r.hashWitness r.hashSeed none).map
      (hashVerifyProof H) = .ok true ∧
    (latticeCreateProof H secret none none r.latPrime r.latTape r.latLweErr
      r.latCommitErr r.latWitness r.latPolyTape).map (latticeVerifyProof H)
      = .ok true ∧
    (mvCreateProof H serial deser secret r.mvWitness r.mvTape none none).map
      (mvVerifyProof H) = .ok true ∧
    (hybridCreateProof H Hm serial deser secret r weightsBytes none).map
      (hybridVerifyProof H) = .ok true := by
  have hm0 : (0 : Int) < r.latPrime := lt_of_lt_of_le (pow_pos (by norm_num) _) hm
  obtain ⟨hhc, hhv⟩ := hash_complete H Hm secret r.hashWitness r.hashSeed Hlen
  have hSentLC : hasCorrupted (latticeMkProof H secret 256 r.latPrime r.latTape
      r.latLweErr r.latCommitErr r.latWitness r.latPolyTape).challenge
      = false := hNoSent _
  have hChallNZ : ∃ x ∈ (latticeMkProof H secret 256 r.latPrime r.latTape
      r.latLweErr r.latCommitErr r.latWitness r.latPolyTape).challenge,
      x ≠ 0 := hHNZ _
  have hlatv := latticeVerify_mkProof H secret r.latPrime r.latTape r.latLweErr
    r.latCommitErr r.latWitness r.latPolyTape Hlen Hbytes hsB hwlen hwB hm herr
    hRespNZ hChallNZ hSentLR hSentLC hSentLM hZKlat
  have hlatc := lattice_create_default H secret r.latPrime r.latTape
    r.latLweErr r.latCommitErr r.latWitness r.latPolyTape hm0
  have hSentMC : hasCorrupted (mvMkProof H serial deser secret r.mvWitness
      r.mvTape 8 12).challenge = false := hNoSent _
  have hSentMM : hasCorrupted (mvMkProof H serial deser secret r.mvWitness
      r.mvTape 8 12).commitment = false := hNoSent _
  have hmvv := mvVerify_mkProof H serial deser secret r.mvWitness r.mvTape
    Hlen hRT hSentMR hSentMC hSentMM hSentMS hZKmv
  have hmvc := mv_create_default H serial deser secret r.mvWitness r.mvTape
  have hhybv := hybridVerify_mkProof H Hm secret
    (ComponentProof.lat (latticeMkProof H secret 256 r.latPrime r.latTape
      r.latLweErr r.latCommitErr r.latWitness r.latPolyTape))
    (ComponentProof.hsh (hashMkProof H Hm secret r.hashWitness r.hashSeed 1000))
    (ComponentProof.mv (mvMkProof H serial deser secret r.mvWitness
      r.mvTape 8 12))
    r.hybWitness weightsBytes Hlen hNoSent hlatv hhv hmvv hZKhyb
  have hhybc := hybrid_create_default H Hm serial deser secret r weightsBytes
    Hlen hm0
  refine ⟨?_, ?_, ?_, ?_⟩
  · rw [hhc]
    simp [Except.map, hhv]
  · rw [hlatc]
    simp [Except.map, hlatv]
  · rw [hmvc]
    simp [Except.map, hmvv]
  · rw [hhybc]
    simp [Except.map, hhybv]

theorem bufferToBigIntsFrac_collapse (R : Buf) (hlen : 80 ≤ R.length) :
    bufferToBigIntsFrac R (min ((R.length : ℚ) / 8) 10) =
      bufferToBigInts R 10 := by
  have h80 : (10 : ℚ) ≤ (R.length : ℚ) / 8 := by
    rw [le_div_iff₀ (by norm_num)]
    have hcast : (80 : ℚ) ≤ (R.length : ℚ) := by exact_mod_cast hlen
    linarith
  rw [min_eq_right h80, show (10 : ℚ) = ((10 : ℕ) : ℚ) by norm_num]
  exact bufferToBigIntsFrac_natCast R 10 (by norm_num)

theorem latticeVerify_zero_response (H : Buf → Buf) (p : LatticeProof)
    (hlen : 80 ≤ p.response.length)
    (hz : ((bufferToBigInts p.response 10).any fun v => !(v == 0)) = false) :
    latticeVerifyProof H p = false := by
  unfold latticeVerifyProof
  simp only [bufferToBigIntsFrac_collapse p.response hlen, hz]
  simp

set_option maxRecDepth 1000000 in
theorem claim_C1_witness :
    (hashCreateProof cHash cHmac [1] sampleRand.hashWitness
      sampleRand.hashSeed none).map (hashVerifyProof cHash) = .ok true ∧
    (latticeCreateProof cHash [1] none none sampleRand.latPrime
      sampleRand.latTape sampleRand.latLweErr sampleRand.latCommitErr
      sampleRand.latWitness sampleRand.latPolyTape).map
      (latticeVerifyProof cHash) = .ok true ∧
    (mvCreateProof cHash sampleSerial sampleDeser [1] sampleRand.mvWitness
      sampleRand.mvTape none none).map (mvVerifyProof cHash) = .ok true ∧
    (hybridCreateProof cHash cHmac sampleSerial sampleDeser [1] sampleRand
      sampleWeights none).map (hybridVerifyProof cHash) = .ok true :=
  claim_C1 cHash cHmac sampleSerial sampleDeser [1] sampleRand sampleWeights
    cHash_length cHash_bytes hasCorrupted_cHash cHash_exists_nonzero
    (by decide) (by decide) (by decide) (by decide) (by decide) (by decide)
    (by decide) (by decide) (by decide) rfl (by decide) (by decide)
    (by decide) (by decide)

set_option maxRecDepth 1000000 in
/-- The lattice engine refutes the universal round-trip claim: with the
zero secret and an all-zero randomness draw the packed LWE response is
all zero, and `verifyLWEEquation`'s non-zero check rejects the proof the
engine itself created. -/
theorem claim_C1_cex :
    (latticeCreateProof cHash [0] none none (256 ^ 33) [] 0 0
      (List.replicate 32 0) []).map (latticeVerifyProof cHash)
      = .ok false := by
  rw [lattice_create_default cHash [0] (256 ^ 33) [] 0 0 (List.replicate 32 0)
    [] (by positivity)]
  simp only [Except.map]
  rw [latticeVerify_zero_response cHash
    (latticeMkProof cHash [0] 256 (256 ^ 33) [] 0 0 (List.replicate 32 0) [])
    (by decide) (by decide)]

/-- C2.  Confirmed.  Each verifier is modelled as a total function into
`Bool` — the shallow embedding of the source's top-level try/catch, whose
every internal fault path is a `return false` — so on every input it
returns one of the two booleans and never propagates an error; and a
proof record violating the structural validator is rejected with `false`
by each of the four engines. -/
theorem claim_C2 (H : Buf → Buf) (p1 : HashProof) (p2 : LatticeProof)
    (p3 : MultivariateProof) (p4 : HybridProof) :
    (hashValidateProofStructure p1 = false → hashVerifyProof H p1 = false) ∧
    (latticeValidateProofStructure p2 = false →
      latticeVerifyProof H p2 = false) ∧
    (mvValidateProofStructure p3 = false → mvVerifyProof H p3 = false) ∧
    (hybridValidateProofStructure p4 = false →
      hybridVerifyProof H p4 = false) ∧
    (hashVerifyProof H p1 = true ∨ hashVerifyProof H p1 = false) ∧
    (latticeVerifyProof H p2 = true ∨ latticeVerifyProof H p2 = false) ∧
    (mvVerifyProof H p3 = true ∨ mvVerifyProof H p3 = false) ∧
    (hybridVerifyProof H p4 = true ∨ hybridVerifyProof H p4 = false) := by
  refine ⟨?_, ?_, ?_, ?_, ?_, ?_, ?_, ?_⟩
  · intro h
    unfold hashVerifyProof
    simp [h]
  · intro h
    unfold latticeVerifyProof
    simp [h]
  · intro h
    unfold mvVerifyProof
    simp [h]
  · intro h
    unfold hybridVerifyProof
    simp [h]
  · cases hashVerifyProof H p1 <;> simp
  · cases latticeVerifyProof H p2 <;> simp
  · cases mvVerifyProof H p3 <;> simp
  · cases hybridVerifyProof H p4 <;> simp

theorem claim_C2_witness :
    hashVerifyProof cHash ⟨"x", [], [], [], 0, [], [], none, none⟩ = false ∧
    latticeVerifyProof cHash ⟨"x", [], [], [], 0, 0, []⟩ = false ∧
    mvVerifyProof cHash ⟨"x", [], [], [], 0, 0, [], []⟩ = false ∧
    hybridVerifyProof cHash ⟨"x", [], [], [], [], [], fun _ => []⟩ = false := by
  obtain ⟨h1, h2, h3, h4, _⟩ := claim_C2 cHash
    ⟨"x", [], [], [], 0, [], [], none, none⟩
    ⟨"x", [], [], [], 0, 0, []⟩
    ⟨"x", [], [], [], 0, 0, [], []⟩
    ⟨"x", [], [], [], [], [], fun _ => []⟩
  exact ⟨h1 (by decide), h2 (by decide), h3 (by decide), h4 (by decide)⟩

/-- C3.  Corrected.  The spec claims that replacing any one of
`commitment`, `challenge` or `response` with an unrelated byte string
makes `verifyProof` reject.  For the hash engine this holds only for the
commitment (cross-checked against the chain head): the verifier never
recomputes the Fiat-Shamir challenge nor the response, it only checks
their lengths, so any 32-byte challenge replacement and any 64-byte
response replacement still verify (see the counterexample).  Precisely:
for a verifying hash proof, a commitment replacement differing from the
chain head is rejected, while a challenge (resp. response) replacement
verifies exactly when it has 32 (resp. 64) bytes. -/
theorem claim_C3 (H : Buf → Buf) (p : HashProof) (c2 ch2 r2 : Buf)
    (h : hashVerifyProof H p = true) (hc : c2 ≠ p.hashChain.headD []) :
    hashVerifyProof H { p with commitment := c2 } = false ∧
    hashVerifyProof H { p with challenge := ch2 } = (ch2.length == 32) ∧
    hashVerifyProof H { p with response := r2 } = (r2.length == 64) :=
  ⟨hash_corrupt_commitment H p c2 h hc, hash_corrupt_challenge H p ch2 h,
    hash_corrupt_response H p r2 h⟩

theorem claim_C3_witness :
    hashVerifyProof cHash { hashMkProof cHash cHmac [1] (List.replicate 32 1)
      (List.replicate 16 2) 1000 with commitment := [] } = false ∧
    hashVerifyProof cHash { hashMkProof cHash cHmac [1] (List.replicate 32 1)
      (List.replicate 16 2) 1000 with challenge := [5] }
      = (List.length [5] == 32) ∧
    hashVerifyProof cHash { hashMkProof cHash cHmac [1] (List.replicate 32 1)
      (List.replicate 16 2) 1000 with response := [7] }
      = (List.length [7] == 64) :=
  claim_C3 cHash
    (hashMkProof cHash cHmac [1] (List.replicate 32 1) (List.replicate 16 2)
      1000) [] [5] [7]
    ((hash_complete cHash cHmac [1] (List.replicate 32 1)
      (List.replicate 16 2) cHash_length).2)
    (by decide)

/-- A 32-byte replacement of the challenge of a freshly created hash
proof, different from the challenge the engine computed, still verifies:
the verifier never re-derives the challenge from the commitment. -/
theorem claim_C3_cex :
    (hashCreateProof cHash cHmac [1] (List.replicate 32 1)
      (List.replicate 16 2) none).map (fun p =>
        hashVerifyProof cHash { p with challenge := List.replicate 32 9 })
      = .ok true ∧
    (hashCreateProof cHash cHmac [1] (List.replicate 32 1)
      (List.replicate 16 2) none).map (fun p =>
        p.challenge == List.replicate 32 9) = .ok false := by
  have hok := hash_complete cHash cHmac [1] (List.replicate 32 1)
    (List.replicate 16 2) cHash_length
  constructor
  · rw [hok.1]
    simp only [Except.map]
    rw [hash_corrupt_challenge cHash _ (List.replicate 32 9) hok.2]
    rfl
  · rw [hok.1]
    simp only [Except.map]
    rfl

/-- C4.  Confirmed.  `verifyHashChain` accepts exactly the lists of at
least two byte strings in which every element from index 1 on is the
digest of its predecessor; in particular a chain differing from that
shape at any single intermediate index is rejected, since the
characterization fails there. -/
theorem claim_C4 (H : Buf → Buf) (c : List Buf) :
    hashVerifyHashChain H c = true ↔
      2 ≤ c.length ∧ ∀ i, i < c.length → 1 ≤ i →
        c.getD i [] = H (c.getD (i - 1) []) := by
  unfold hashVerifyHashChain
  by_cases hlen : c.length < 2
  · rw [if_pos hlen]
    simp only [Bool.false_eq_true, false_iff, not_and]
    intro h
    exfalso
    omega
  · rw [if_neg hlen, List.all_eq_true]
    constructor
    · intro hall
      refine ⟨by omega, ?_⟩
      intro i hi h1
      have hmem := hall (i - 1) (List.mem_range.mpr (by omega))
      rw [beq_iff_eq] at hmem
      have heq : i - 1 + 1 = i := by omega
      rw [heq] at hmem
      exact hmem.symm
    · rintro ⟨h2, hall⟩
      intro i hi
      rw [List.mem_range] at hi
      rw [beq_iff_eq]
      have := hall (i + 1) (by omega) (by omega)
      simpa using this.symm

theorem claim_C4_witness :
    hashVerifyHashChain cHash [[7], cHash [7]] = true :=
  (claim_C4 cHash [[7], cHash [7]]).mpr ⟨by decide, by
    intro i hi h1
    have h2 : i = 1 := by
      simp only [List.length_cons, List.length_nil] at hi
      omega
    subst h2
    rfl⟩

/-- C5.  Corrected.  `generateMerkleProof` pushes no sibling when the
running index is the duplicated last node of an odd-length level, so the
generated path is too short and the spec's round trip fails for such
indices (see the counterexample: three leaves, index 2).  The claim does
hold whenever every level supplies a sibling, and each clause below
carries only its own hypotheses: index 0 round-trips over any non-empty
leaf list; any valid index round-trips when the leaf count is a power of
two; and with an injective digest a leaf different from the committed
one is rejected at every index whose honest leaf verifies. -/
theorem claim_C5 (H : Buf → Buf) (leaves : List Buf) (i : Nat)
    (tree : List (List Buf)) (root : Buf)
    (hne : leaves ≠ [])
    (htree : generateMerkleTree H leaves = .ok (tree, root)) :
    verifyMerkleProof H (leaves.getD 0 []) (generateMerkleProof tree 0)
      root 0 = true ∧
    (∀ k, leaves.length = 2 ^ k → i < leaves.length →
      verifyMerkleProof H (leaves.getD i []) (generateMerkleProof tree i)
        root i = true) ∧
    (∀ leaf2, Function.Injective H → leaf2 ≠ leaves.getD i [] →
      verifyMerkleProof H (leaves.getD i []) (generateMerkleProof tree i)
        root i = true →
      verifyMerkleProof H leaf2 (generateMerkleProof tree i) root i
        = false) := by
  unfold generateMerkleTree at htree
  rw [if_neg (by simp [List.isEmpty_iff, hne])] at htree
  rw [Except.ok.injEq, Prod.mk.injEq] at htree
  obtain ⟨htr, hrt⟩ := htree
  subst htr
  subst hrt
  refine ⟨verifyMerkleProof_zero H leaves hne, ?_, ?_⟩
  · intro k hp2 hi
    exact verifyMerkleProof_pow2 H leaves k i hp2 hi
  · intro leaf2 hinj hl2 hok
    exact verifyMerkleProof_other_leaf H hinj leaves i leaf2 hl2 hok

theorem claim_C5_witness :
    verifyMerkleProof pairHash ([[1], [2]].getD 0 [])
      (generateMerkleProof (buildLevels pairHash [[1], [2]]) 0)
      (merkleRootOf (buildLevels pairHash [[1], [2]])) 0 = true ∧
    verifyMerkleProof pairHash ([[1], [2]].getD 1 [])
      (generateMerkleProof (buildLevels pairHash [[1], [2]]) 1)
      (merkleRootOf (buildLevels pairHash [[1], [2]])) 1 = true ∧
    verifyMerkleProof pairHash [3]
      (generateMerkleProof (buildLevels pairHash [[1], [2]]) 1)
      (merkleRootOf (buildLevels pairHash [[1], [2]])) 1 = false ∧
    verifyMerkleProof cHash ([[1], [2], [3]].getD 0 [])
      (generateMerkleProof (buildLevels cHash [[1], [2], [3]]) 0)
      (merkleRootOf (buildLevels cHash [[1], [2], [3]])) 0 = true := by
  obtain ⟨h0, hp, hr⟩ := claim_C5 pairHash [[1], [2]] 1
    (buildLevels pairHash [[1], [2]])
    (merkleRootOf (buildLevels pairHash [[1], [2]])) (by decide) rfl
  have h1 := hp 1 rfl (by decide)
  have h3 := (claim_C5 cHash [[1], [2], [3]] 0
    (buildLevels cHash [[1], [2], [3]])
    (merkleRootOf (buildLevels cHash [[1], [2], [3]])) (by decide) rfl).1
  exact ⟨h0, h1, hr [3] pairHash_injective (by decide) h1, h3⟩

set_option maxRecDepth 100000 in
/-- With three leaves the honest proof for index 2 skips the missing
sibling of the duplicated last node, and verification of the engine's
own round trip fails. -/
theorem claim_C5_cex :
    (generateMerkleTree cHash [[1], [2], [3]]).map (fun tr =>
      verifyMerkleProof cHash [3] (generateMerkleProof tr.1 2) tr.2 2)
      = .ok false := by
  rfl

theorem hashCreate_some_ok (H : Buf → Buf) (Hm : Buf → Buf → Buf)
    (secret witness randomSeed : Buf) (v : Int) (hv : v ≠ 0)
    (h100 : 100 ≤ v) :
    hashCreateProof H Hm secret witness randomSeed (some v)
      = .ok (hashMkProof H Hm secret witness randomSeed v) := by
  unfold hashCreateProof
  have hb : (v == 0) = false := by simp [hv]
  have hval : validateHashParameters v = true := by
    simp [validateHashParameters]
    omega
  have hne : createHashChain H (secret ++ randomSeed) v.toNat ≠ [] := by
    intro hx
    have hl := createHashChain_length H (secret ++ randomSeed) v.toNat
    rw [hx] at hl
    simp at hl
    omega
  simp [hb, hval, List.isEmpty_iff, hne]

theorem hashCreate_some_zero (H : Buf → Buf) (Hm : Buf → Buf → Buf)
    (secret witness randomSeed : Buf) :
    hashCreateProof H Hm secret witness randomSeed (some 0)
      = .ok (hashMkProof H Hm secret witness randomSeed 1000) := by
  unfold hashCreateProof
  have hne : createHashChain H (secret ++ randomSeed) (1000 : Nat)
      ≠ [] := by
    intro hx
    have hl := createHashChain_length H (secret ++ randomSeed) (1000 : Nat)
    rw [hx] at hl
    simp at hl
  simp [validateHashParameters, List.isEmpty_iff, hne]

theorem hashMkProof_chain_length (H : Buf → Buf) (Hm : Buf → Buf → Buf)
    (secret witness randomSeed : Buf) (v : Int) :
    (hashMkProof H Hm secret witness randomSeed v).hashChain.length
      = v.toNat := by
  rw [hashMkProof_hashChain, createHashChain_length]

/-- C6.  Corrected.  `createProof` reads the parameter as
`parameters?.chainLength || 1000`, so the falsy supplied value `0` does
not fail: it silently falls back to the default and succeeds with a
1000-element chain (see the counterexample), although `0 < 100`.  For
every non-zero supplied value below 100 creation fails with the
parameter error (in particular for 50), and with 500 it succeeds with a
500-element chain. -/
theorem claim_C6 (H : Buf → Buf) (Hm : Buf → Buf → Buf)
    (secret witness randomSeed : Buf) (v : Int) :
    (v ≠ 0 → v < 100 →
      hashCreateProof H Hm secret witness randomSeed (some v)
        = .error "Invalid hash parameters") ∧
    ((hashCreateProof H Hm secret witness randomSeed (some 500)).map
      (fun p => p.hashChain.length) = .ok 500) ∧
    ((hashCreateProof H Hm secret witness randomSeed (some 0)).map
      (fun p => p.hashChain.length) = .ok 1000) := by
  refine ⟨?_, ?_, ?_⟩
  · intro hv hlt
    unfold hashCreateProof
    have hb : (v == 0) = false := by simp [hv]
    have hval : ¬(100 ≤ v) := by omega
    simp [hb, validateHashParameters, hval]
  · rw [hashCreate_some_ok H Hm secret witness randomSeed 500 (by norm_num)
      (by norm_num)]
    simp only [Except.map]
    rw [hashMkProof_chain_length]
    rfl
  · rw [hashCreate_some_zero H Hm secret witness randomSeed]
    simp only [Except.map]
    rw [hashMkProof_chain_length]
    rfl

theorem claim_C6_witness :
    hashCreateProof cHash cHmac [1] (List.replicate 32 1)
      (List.replicate 16 2) (some 50) = .error "Invalid hash parameters" ∧
    (hashCreateProof cHash cHmac [1] (List.replicate 32 1)
      (List.replicate 16 2) (some 500)).map (fun p => p.hashChain.length)
      = .ok 500 :=
  ⟨(claim_C6 cHash cHmac [1] (List.replicate 32 1) (List.replicate 16 2)
      50).1 (by decide) (by decide),
    (claim_C6 cHash cHmac [1] (List.replicate 32 1) (List.replicate 16 2)
      50).2.1⟩

/-- The supplied parameter `chainLength = 0` is below 100, yet creation
does not fail: the `|| 1000` fallback replaces it and a 1000-element
chain is produced. -/
theorem claim_C6_cex :
    (0 : Int) < 100 ∧
    (hashCreateProof cHash cHmac [1] (List.replicate 32 1)
      (List.replicate 16 2) (some 0)).map (fun p => p.hashChain.length)
      = .ok 1000 := by
  refine ⟨by norm_num, ?_⟩
  rw [hashCreate_some_zero cHash cHmac [1] (List.replicate 32 1)
    (List.replicate 16 2)]
  simp only [Except.map]
  rw [hashMkProof_chain_length]
  rfl

/-- C7.  Confirmed.  For a non-empty buffer and positive `n ≤ length`,
`bigIntsToBuffer (bufferToBigInts(b, n))` is the concatenation of the
per-integer re-encodings, and the `i`-th re-encoded segment denotes the
same big-endian integer as the `i`-th slice of `b` — equality of numeric
content up to the leading zero bytes each slice may lose. -/
theorem claim_C7 (b : Buf) (n : Nat) (hb : b ≠ []) (hn : 0 < n)
    (hle : n ≤ b.length) :
    bigIntsToBuffer (bufferToBigInts b n) =
      ((List.range n).map fun i =>
        intToBEBytes ((bufferToBigInts b n).getD i 0)).flatten ∧
    ∀ i, i < n →
      beBytesToNat (intToBEBytes ((bufferToBigInts b n).getD i 0))
        = beBytesToNat (sliceOf b n i) := by
  constructor
  · show ((bufferToBigInts b n).map intToBEBytes).flatten = _
    congr 1
    conv_lhs => rw [bufferToBigInts]
    rw [List.map_map]
    refine List.map_congr_left ?_
    intro i hi
    rw [List.mem_range] at hi
    simp only [Function.comp]
    rw [bufferToBigInts_getD b n i hi]
  · intro i hi
    rw [bufferToBigInts_getD_value b n i hi,
      intToBEBytes_of_nonneg _ (Int.natCast_nonneg _), natToBEBytes_spec]
    simp

theorem claim_C7_witness :
    bigIntsToBuffer (bufferToBigInts [1, 2, 3] 2) =
      ((List.range 2).map fun i =>
        intToBEBytes ((bufferToBigInts [1, 2, 3] 2).getD i 0)).flatten ∧
    ∀ i, i < 2 →
      beBytesToNat (intToBEBytes ((bufferToBigInts [1, 2, 3] 2).getD i 0))
        = beBytesToNat (sliceOf [1, 2, 3] 2 i) :=
  claim_C7 [1, 2, 3] 2 (by decide) (by decide) (by decide)

/-- C8.  Corrected.  `combineHashes` fails exactly on the empty array and
otherwise reduces the list by the LEFT fold `acc = H(acc ++ h)` seeded
with the first element.  The spec calls this a commutative fold, but the
operation is order-sensitive: permuting the input changes the digest (see
the counterexample), so only the fold characterization and the
error-iff-empty part survive. -/
theorem claim_C8 (H : Buf → Buf) (hashes : List Buf) :
    (combineHashes H hashes = .error "Cannot combine empty hash array" ↔
      hashes = []) ∧
    ∀ h t, hashes = h :: t →
      combineHashes H hashes = .ok (t.foldl (fun acc x => H (acc ++ x)) h) := by
  cases hashes with
  | nil =>
      constructor
      · simp [combineHashes]
      · intro h t ht
        exact absurd ht (by simp)
  | cons h t =>
      constructor
      · cases t <;> simp [combineHashes]
      · intro h2 t2 heq
        injection heq with e1 e2
        subst e1
        subst e2
        cases t with
        | nil => rfl
        | cons a r => rfl

theorem claim_C8_witness :
    combineHashes cHash ([] : List Buf)
      = .error "Cannot combine empty hash array" ∧
    combineHashes cHash [[1], [2]]
      = .ok ([[2]].foldl (fun acc x => cHash (acc ++ x)) [1]) :=
  ⟨(claim_C8 cHash []).1.mpr rfl, (claim_C8 cHash [[1], [2]]).2 [1] [[2]] rfl⟩

/-- A two-element permutation on which `combineHashes` disagrees: the
fold is left-biased, not commutative. -/
theorem claim_C8_cex :
    List.Perm [[1], [2]] [[2], ([1] : Buf)] ∧
    combineHashes cHash [[1], [2]] ≠ combineHashes cHash [[2], [1]] := by
  constructor
  · decide
  · intro h
    have h2 : cHash ([1] ++ [2]) = cHash ([2] ++ [1]) := Except.ok.inj h
    exact absurd h2 (by decide)

/-- C9.  Corrected.  `generateLWESample` does return a vector `a` of
`dimension` integers in `[0, modulus)`, but the scalar `b` is NOT the
error-perturbed inner product of `a` with a secret vector: the function
reads no secret at all; `b` is one further independent random draw plus
the sampled error, reduced modulo the modulus.  The counterexample
exhibits two runs with identical `a` (and identical modulus and error)
whose `b` differ, which no function of the form
`b = (sum of a_i * secret_i + error) mod modulus` over a fixed secret
allows. -/
theorem claim_C9 (dimension : Nat) (m err : Int) (tape : List Nat)
    (hm : 0 < m) :
    (generateLWESample dimension m err tape).1.length = dimension ∧
    (∀ v ∈ (generateLWESample dimension m err tape).1, 0 ≤ v ∧ v < m) ∧
    (generateLWESample dimension m err tape).2
      = Int.tmod (randBig 0 m (tape.getD dimension 0) + err) m := by
  refine ⟨generateLWESample_fst_length dimension m err tape, ?_, rfl⟩
  intro v hv
  refine ⟨generateLWESample_fst_nonneg dimension m err tape hm v hv, ?_⟩
  simp only [generateLWESample, List.mem_map] at hv
  obtain ⟨i, _, rfl⟩ := hv
  unfold randBig
  have h1 : ((tape.getD i 0 : Nat) : Int).tmod (m - 0) < m := by
    rw [sub_zero, Int.tmod_eq_emod (Int.natCast_nonneg _) (le_of_lt hm)]
    exact Int.emod_lt_of_pos _ hm
  omega

theorem claim_C9_witness :
    (generateLWESample 2 7 1 [3, 4, 5]).1.length = 2 ∧
    (∀ v ∈ (generateLWESample 2 7 1 [3, 4, 5]).1, 0 ≤ v ∧ v < 7) ∧
    (generateLWESample 2 7 1 [3, 4, 5]).2
      = Int.tmod (randBig 0 7 ([3, 4, 5].getD 2 0) + 1) 7 :=
  claim_C9 2 7 1 [3, 4, 5] (by decide)

/-- Two sampler runs returning the same vector `a` under the same modulus
and error but different scalars `b`: `b` is not a function of `a`, the
error and the modulus, hence not the claimed perturbed inner product. -/
theorem claim_C9_cex :
    (generateLWESample 1 5 0 [2, 0]).1 = (generateLWESample 1 5 0 [2, 1]).1 ∧
    (generateLWESample 1 5 0 [2, 0]).2 ≠ (generateLWESample 1 5 0 [2, 1]).2 := by
  constructor <;> decide

/-- C10.  Confirmed.  For every buffer (empty included) and positive
count `n`, `bufferToBigInts` returns exactly `n` integers; the `i`-th is
the big-endian value of the `i`-th ceiling-division-sized slice (an
empty slice has value 0), and every slice starting at or past the end of
the buffer is returned as `0`. -/
theorem claim_C10 (b : Buf) (n : Nat) (hn : 0 < n) :
    (bufferToBigInts b n).length = n ∧
    (∀ i, i < n → (bufferToBigInts b n).getD i 0
      = (beBytesToNat (sliceOf b n i) : Int)) ∧
    (∀ i, i < n → b.length ≤ i * bytesPerIntOf b.length n →
      (bufferToBigInts b n).getD i 0 = 0) := by
  refine ⟨bufferToBigInts_length b n, ?_, ?_⟩
  · intro i hi
    exact bufferToBigInts_getD_value b n i hi
  · intro i hi hpast
    rw [bufferToBigInts_getD_value b n i hi]
    have hsl : sliceOf b n i = [] := by
      unfold sliceOf
      rw [List.drop_eq_nil_of_le hpast]
      simp
    rw [hsl]
    simp [beBytesToNat]

theorem claim_C10_witness :
    (bufferToBigInts [1, 2, 3] 5).length = 5 ∧
    (∀ i, i < 5 → (bufferToBigInts [1, 2, 3] 5).getD i 0
      = (beBytesToNat (sliceOf [1, 2, 3] 5 i) : Int)) ∧
    (∀ i, i < 5 → ([1, 2, 3] : Buf).length
        ≤ i * bytesPerIntOf ([1, 2, 3] : Buf).length 5 →
      (bufferToBigInts [1, 2, 3] 5).getD i 0 = 0) :=
  claim_C10 [1, 2, 3] 5 (by decide)
